import Mathlib

/-!
Verification development for the `topk` repository: a HeavyKeeper top-K
sketch (package `topk`, file `sketch.go`), its top-K min-heap (package
`heap`, file `heap/heap.go`), and the sliding-window variant (package
`sliding`, files `sliding/sketch.go` and the sliding `Bucket` file with
`tick` / `findNonzeroMinimumCount`).

Modelling conventions, applied throughout:

* Go `uint32` values are modelled as `Nat` together with explicit
  `% 2^32` at every operation where Go arithmetic can wrap
  (addition, subtraction, decrement).  `U32 = 2^32`.
* Hashing is external (xxhash32): the spec treats it abstractly as a
  pair of 32-bit hash functions, so every operation is parameterised
  by a `Hasher` providing `Fingerprint item` and the per-row hash
  `H(item, row)` used by `BucketIndex`.
* Randomness: the source draws `rand.Float32()` once per iteration of
  the collision-decay loop and compares it with the decay threshold
  `p^count`.  The injected uniform[0,1) source is modelled as a
  Boolean oracle `rnd : Nat → Bool` giving the outcome of the
  comparison `x < decay` for the n-th draw, together with a running
  draw index.  For the default decay 0.9 and the small counter values
  appearing in all concrete computations below, the threshold lies
  strictly between 0 and 1 (as a float32), so both Boolean outcomes
  are realisable by actual draws (x = 0.0 gives true, x = 0.99 gives
  false); universal statements quantify over every oracle, which is a
  superset of the behaviours of every real draw sequence.
* `float32` configuration values (`Decay`, the decay LUT) are carried
  as exact rationals.  No claim depends on a LUT entry's numeric
  value: the Bernoulli comparison is absorbed by the oracle.
* Go maps (`map[string]int`) are modelled as association lists with
  lookup = first match, insert = replace-or-append, delete = remove.
* Go slice indexing panics when out of bounds.  Operations whose
  in-bounds behaviour is in question (the sliding `Add` ring writes)
  return `Option` and model a panic as `none`; operations that are
  in-bounds on every state reachable through the public API are
  modelled with defaulted access (`getD`), with the well-formedness
  assumptions stated as hypotheses on theorems.
-/

/-- 2^32, the modulus of Go `uint32` arithmetic. -/
def U32 : Nat := 4294967296

/-- Modify the element at index `i` (no-op out of bounds), used to model
in-place updates of a Go slice element. -/
def listModify (l : List α) (i : Nat) (f : α → α) : List α :=
  if h : i < l.length then l.set i (f l[i]) else l

/-- Lexicographic comparison of character lists by codepoint. -/
def charListLt : List Char → List Char → Bool
  | [], [] => false
  | [], _ :: _ => true
  | _ :: _, [] => false
  | c :: cs, d :: ds =>
    if c.toNat < d.toNat then true
    else if d.toNat < c.toNat then false
    else charListLt cs ds

/-- Go's `<` on strings (byte-lexicographic), modelled as
codepoint-lexicographic comparison — identical on the ASCII item keys
used in every computation below. -/
def strLt (a b : String) : Bool := charListLt a.data b.data

namespace heap

/-- Entry of the top-K min-heap (`heap.Item` in `heap/heap.go`):
fingerprint, the item string, and its count. -/
structure Item where
  Fingerprint : Nat
  Item : String
  Count : Nat
deriving Repr, DecidableEq

/-- The zero `Item` value (Go's zero value for the struct). -/
def zeroItem : Item := ⟨0, "", 0⟩

/-- The min-heap `heap.Min` of `heap/heap.go`.  The Go struct has no
explicit capacity field; `NewMin(k)` allocates `Items` with
`len = cap = k` and `Full()` tests `len(Items) == cap(Items)`.  The
capacity never changes (`Push` only appends when the heap is not full,
`Pop` shrinks the length), so it is carried here as the field `k`. -/
structure Min where
  k : Nat
  Items : List Item
  Index : List (String × Nat)
  StoredKeysBytes : Nat
deriving Repr, DecidableEq

/-- Association-list model of Go map lookup (first match). -/
def mapLookup (m : List (String × Nat)) (s : String) : Option Nat :=
  match m with
  | [] => none
  | p :: rest => if p.1 = s then some p.2 else mapLookup rest s

/-- Association-list model of Go map insert (`m[s] = v`). -/
def mapInsert (m : List (String × Nat)) (s : String) (v : Nat) :
    List (String × Nat) :=
  match m with
  | [] => [(s, v)]
  | p :: rest =>
    if p.1 = s then (s, v) :: rest else p :: mapInsert rest s v

/-- Association-list model of Go map delete (`delete(m, s)`). -/
def mapDelete (m : List (String × Nat)) (s : String) :
    List (String × Nat) :=
  match m with
  | [] => []
  | p :: rest =>
    if p.1 = s then mapDelete rest s else p :: mapDelete rest s

/-- `heap.NewMin(k)`: `Items` is allocated with length `k` (all zero
entries), the index map is empty. -/
def NewMin (k : Nat) : Min :=
  { k := k
    Items := List.replicate k zeroItem
    Index := []
    StoredKeysBytes := 0 }

/-- `Min.Full`: `len(me.Items) == cap(me.Items)`; the capacity is `k`. -/
def Full (h : Min) : Bool := h.Items.length == h.k

/-- `Min.Len`. -/
def Len (h : Min) : Nat := h.Items.length

/-- `Min.Less(i, j)`: count ascending, ties by item string ascending
(byte-lexicographic in Go; codepoint-lexicographic here — identical on
the ASCII strings used in all computations). -/
def Less (items : List Item) (i j : Nat) : Bool :=
  let bi := items.getD i zeroItem
  let bj := items.getD j zeroItem
  if bi.Count == bj.Count then strLt bi.Item bj.Item else bi.Count < bj.Count

/-- `Min.Swap(i, j)`: exchange the entries and update both index map
entries (in the source's order: `Index[itemi] = j` then
`Index[itemj] = i`). -/
def Swap (h : Min) (i j : Nat) : Min :=
  let itemi := (h.Items.getD i zeroItem).Item
  let itemj := (h.Items.getD j zeroItem).Item
  let xi := h.Items.getD i zeroItem
  let xj := h.Items.getD j zeroItem
  { h with
    Items := (h.Items.set i xj).set j xi
    Index := mapInsert (mapInsert h.Index itemi j) itemj i }

/-- Fuelled body of `container/heap.down`.  The sift index strictly
increases (`j ≥ 2i+1 > i`) and every iteration requires `2i+1 < n`, so
`n` units of fuel always outlast the loop; the fuel-exhausted branch
returns the loop's own exit value and is unreachable for `fuel = n`. -/
def downAux (fuel : Nat) (h : Min) (i n : Nat) : Min × Bool :=
  match fuel with
  | 0 => (h, false)
  | fuel + 1 =>
    let j1 := 2 * i + 1
    if j1 < n then
      let j2 := j1 + 1
      let j := if j2 < n ∧ Less h.Items j2 j1 then j2 else j1
      if Less h.Items j i then
        let r := downAux fuel (Swap h i j) j n
        (r.1, true)
      else (h, false)
    else (h, false)

/-- `container/heap.down(h, i0, n)`: sift the entry at `i0` down within
the first `n` entries; returns the new state and whether it moved. -/
def down (h : Min) (i n : Nat) : Min × Bool := downAux n h i n

/-- Fuelled body of `container/heap.up`; the index strictly decreases,
so `j + 1` units of fuel always outlast the loop. -/
def upAux (fuel : Nat) (h : Min) (j : Nat) : Min :=
  match fuel with
  | 0 => h
  | fuel + 1 =>
    let i := (j - 1) / 2
    if i = j ∨ ¬ Less h.Items j i then h
    else upAux fuel (Swap h i j) i

/-- `container/heap.up(h, j)`: sift the entry at `j` up.  Go computes
the parent as `(j-1)/2` with truncating integer division, which agrees
with `Nat` subtraction-then-division at `j = 0` (both give `0`, and the
loop stops because `i == j`). -/
def up (h : Min) (j : Nat) : Min := upAux (j + 1) h j

/-- `container/heap.Fix(h, i)`: `if !down(h, i, h.Len()) { up(h, i) }`. -/
def Fix (h : Min) (i : Nat) : Min :=
  let r := down h i (Len h)
  if r.2 then r.1 else up r.1 i

/-- `Min.Push` (the method, not `container/heap.Push`): append the entry
and record its position in the index map.  Note the source's `Update`
calls this method directly, so no sift-up happens on this path. -/
def Push (h : Min) (b : Item) : Min :=
  { h with
    Items := h.Items ++ [b]
    Index := mapInsert h.Index b.Item h.Items.length }

/-- `Min.Pop` (the method): remove and return the last entry, deleting
its index map entry. -/
def PopLast (h : Min) : Min × Item :=
  let n := h.Items.length
  let x := h.Items.getD (n - 1) zeroItem
  ({ h with
     Items := h.Items.take (n - 1)
     Index := mapDelete h.Index x.Item }, x)

/-- `container/heap.Pop(h)`: swap root and last, sift down over the
first `n-1` entries, then call the interface `Pop` method. -/
def PopGo (h : Min) : Min × Item :=
  let n := Len h - 1
  let h1 := Swap h 0 n
  let h2 := (down h1 0 n).1
  PopLast h2

/-- `container/heap.Init(h)`: `for i := n/2 - 1; i >= 0; i-- { down(h, i, n) }`. -/
def Init (h : Min) : Min :=
  let n := Len h
  (List.range (n / 2)).reverse.foldl (fun acc i => (down acc i n).1) h

/-- The pop-zero loop of `Min.Reinit`, by fuel on the number of items:
`for me.Len() > 0 && me.Items[0].Count == 0 { heap.Pop(me); delete(...) }`.
(The extra `delete(me.Index, item)` after `heap.Pop` repeats the delete
already done inside `Min.Pop` for the same string, a no-op.) -/
def popZeros (h : Min) (fuel : Nat) : Min :=
  match fuel with
  | 0 => h
  | fuel + 1 =>
    if h.Items.length ≠ 0 ∧ (h.Items.getD 0 zeroItem).Count = 0 then
      let item := (h.Items.getD 0 zeroItem).Item
      let h' := (PopGo h).1
      popZeros { h' with Index := mapDelete h'.Index item } fuel
    else h

/-- `Min.Reinit`: heapify from scratch, then pop zero-count roots. -/
def Reinit (h : Min) : Min :=
  let h1 := Init h
  popZeros h1 h1.Items.length

/-- `Min.Min`: the root's count, or 0 when empty. -/
def MinVal (h : Min) : Nat :=
  if h.Items.length = 0 then 0 else (h.Items.getD 0 zeroItem).Count

/-- `Min.Find`: index map lookup, `-1` (here `none`) when absent. -/
def Find (h : Min) (item : String) : Option Nat := mapLookup h.Index item

/-- `Min.Contains`. -/
def Contains (h : Min) (item : String) : Bool := (Find h item).isSome

/-- `Min.Update(item, fingerprint, count)` of `heap/heap.go`
(lines 114–148), translated clause for clause. -/
def Update (h : Min) (item : String) (fingerprint count : Nat) :
    Min × Bool :=
  if count < MinVal h ∧ Full h then (h, false)
  else
    match Find h item with
    | some i =>
      let items' := listModify h.Items i (fun b => { b with Count := count })
      (Fix { h with Items := items' } i, true)
    | none =>
      let h := { h with StoredKeysBytes := h.StoredKeysBytes + item.length }
      if ¬ Full h then (Push h ⟨fingerprint, item, count⟩, true)
      else
        let minItem := (h.Items.getD 0 zeroItem).Item
        let h := { h with
          StoredKeysBytes := h.StoredKeysBytes - minItem.length
          Index := mapDelete h.Index minItem }
        let h := { h with
          Items := h.Items.set 0 ⟨fingerprint, item, count⟩
          Index := mapInsert h.Index item 0 }
        (Fix h 0, true)

/-- `Min.Reset`: `clear(Items)` followed by `Items = Items[:0]` empties
the array (capacity retained), the index map is cleared and
`StoredKeysBytes` zeroed. -/
def Reset (h : Min) : Min :=
  { h with Items := [], Index := [], StoredKeysBytes := 0 }

end heap

namespace topk

/-- Abstract pair of 32-bit hash functions.  The source uses
`xxhash.ChecksumString32S(item, 4848280)` for fingerprints and
`xxhash.ChecksumString32S(item, uint32(row))` for bucket placement;
the spec treats hashing as an external collaborator, so both are
injected here. -/
structure Hasher where
  fp : String → Nat
  row : String → Nat → Nat

/-- `topk.Fingerprint` (hash.go). -/
def Fingerprint (H : Hasher) (item : String) : Nat := H.fp item

/-- `topk.BucketIndex` (hash.go): `row*width + int(hash(item,row)) % width`. -/
def BucketIndex (H : Hasher) (item : String) (row width : Nat) : Nat :=
  row * width + H.row item row % width

/-- A plain-sketch bucket (`topk.Bucket` in sketch.go). -/
structure Bucket where
  Fingerprint : Nat
  Count : Nat
deriving Repr, DecidableEq

/-- The plain sketch `topk.Sketch` (sketch.go).  `Decay` and the LUT
contents are carried as exact rationals; no theorem below depends on a
LUT entry's value (the Bernoulli comparison is the oracle's job). -/
structure Sketch where
  K : Nat
  Width : Nat
  Depth : Nat
  Decay : ℚ
  DecayLUT : List ℚ
  Buckets : List Bucket
  Heap : heap.Min
deriving Repr, DecidableEq

/-- Functional option `topk.WithWidth`. -/
def WithWidth (w : Nat) : Sketch → Sketch := fun s => { s with Width := w }

/-- Functional option `topk.WithDepth`. -/
def WithDepth (d : Nat) : Sketch → Sketch := fun s => { s with Depth := d }

/-- Functional option `topk.WithDecay`. -/
def WithDecay (q : ℚ) : Sketch → Sketch := fun s => { s with Decay := q }

/-- Functional option `topk.WithDecayLUTSize`: allocates a zeroed LUT of
the given size (`New` later fills it with powers of `Decay`). -/
def WithDecayLUTSize (n : Nat) : Sketch → Sketch :=
  fun s => { s with DecayLUT := List.replicate n 0 }

/-- `Sketch.initBuckets`: `make([]Bucket, Width*Depth)`. -/
def initBuckets (s : Sketch) : Sketch :=
  { s with Buckets := List.replicate (s.Width * s.Depth) ⟨0, 0⟩ }

/-- `Sketch.initDecayLUT`: entry `i` becomes `Decay^i` (float `math.Pow`
in the source, exact rational power here; see the file header). -/
def initDecayLUT (s : Sketch) : Sketch :=
  { s with DecayLUT := (List.range s.DecayLUT.length).map (fun i => s.Decay ^ i) }

/-- `topk.New(k, opts...)` with the already-computed value of
`log_k := int(math.Ceil(math.Log(float64(k))))` passed in, so that the
rest of the constructor stays executable.  `New` below ties `log_k` to
its real-log value. -/
def NewAux (log_k : Int) (k : Nat) (opts : List (Sketch → Sketch)) : Sketch :=
  let out : Sketch :=
    { K := k
      Width := (max 256 ((k : Int) * log_k)).toNat
      Depth := (max 3 log_k).toNat
      Decay := 9 / 10
      DecayLUT := []
      Buckets := []
      Heap := heap.NewMin 0 }
  let out := opts.foldl (fun s o => o s) out
  let out := if out.DecayLUT.length = 0
    then { out with DecayLUT := List.replicate 256 0 } else out
  let out := { out with Heap := heap.NewMin out.K }
  initDecayLUT (initBuckets out)

/-- `int(math.Ceil(math.Log(float64(k))))` of `topk.New`, modelled over
the exact real logarithm (float64 rounding of `math.Log` never moves
the ceiling for any `k` whose log is not within ~1e-9 of an integer;
all `k` used below are far from such boundaries). -/
noncomputable def goCeilLogK (k : Nat) : Int := ⌈Real.log k⌉

/-- `topk.New(k, opts...)` (sketch.go lines 32–57). -/
noncomputable def New (k : Nat) (opts : List (Sketch → Sketch)) : Sketch :=
  NewAux (goCeilLogK k) k opts

/-- Maximum bucket count over the `Depth` rows among buckets whose
stored fingerprint matches (the bucket-scan part of `Sketch.Count`). -/
def bucketMax (H : Hasher) (st : Sketch) (item : String) (fingerprint : Nat) : Nat :=
  (List.range st.Depth).foldl
    (fun mx i =>
      let b := st.Buckets.getD (BucketIndex H item i st.Width) ⟨0, 0⟩
      if b.Fingerprint ≠ fingerprint then mx else max mx b.Count)
    0

/-- `Sketch.Count` (sketch.go lines 81–101): heap first (with the
item-string double check), bucket scan otherwise. -/
def Count (H : Hasher) (st : Sketch) (item : String) : Nat :=
  let viaHeap : Option Nat :=
    match heap.Find st.Heap item with
    | some i =>
      let b := st.Heap.Items.getD i heap.zeroItem
      if b.Item = item then some b.Count else none
    | none => none
  match viaHeap with
  | some c => c
  | none => bucketMax H st item (Fingerprint H item)

/-- The Bernoulli decay loop of `Sketch.Add`'s collision case.  Each
iteration draws once (`rand.Float32()`) and compares with the decay
threshold (LUT lookup for `count < len(LUT)`, `pow` fallback
otherwise); the outcome of that comparison is `rnd j` for the j-th
draw.  On success the counter is decremented (`count ≥ 1` whenever the
decrement executes, because a zero result breaks out immediately, so
plain `Nat` subtraction is exact here); when it reaches zero the bucket
is claimed and the remaining increment (`incrementRemaining`) becomes
the new count.  Returns (final count, claimed?, next draw index). -/
def decayLoop (rnd : Nat → Bool) (j : Nat) (count : Nat) (rem : Nat) :
    Nat × Bool × Nat :=
  match rem with
  | 0 => (count, false, j)
  | r + 1 =>
    if rnd j then
      let count' := count - 1
      if count' = 0 then (r + 1, true, j + 1)
      else decayLoop rnd (j + 1) count' r
    else decayLoop rnd (j + 1) count r

/-- One row of `Sketch.Add`'s loop (sketch.go lines 115–157), on the
accumulator (buckets, running max, draw index).  Faithful details: in
the hit case the stored count becomes `(old + increment) % 2^32` (the
intermediate dead store `b.Count = increment` on line 128 is
overwritten by `b.Count = count` on line 155); and the running maximum
`max = uint32Max(max, count)` sits on line 156 *outside* the case
switch, so an un-claimed collision contributes the foreign bucket's
(possibly decremented) count to the estimate offered to the heap. -/
def addRowStep (H : Hasher) (rnd : Nat → Bool) (item : String)
    (fingerprint increment width : Nat) (acc : List Bucket × Nat × Nat)
    (i : Nat) : List Bucket × Nat × Nat :=
  let bs := acc.1
  let mx := acc.2.1
  let jj := acc.2.2
  let k := BucketIndex H item i width
  let b := bs.getD k ⟨0, 0⟩
  let res :=
    if b.Count = 0 then
      ((⟨fingerprint, increment⟩ : Bucket), increment, jj)
    else if b.Fingerprint = fingerprint then
      let c := (b.Count + increment) % U32
      ((⟨b.Fingerprint, c⟩ : Bucket), c, jj)
    else
      let r := decayLoop rnd jj b.Count increment
      ((⟨if r.2.1 then fingerprint else b.Fingerprint, r.1⟩ : Bucket), r.1, r.2.2)
  (bs.set k res.1, max mx res.2.1, res.2.2)

/-- `Sketch.Add` (sketch.go lines 110–160): fold `addRowStep` over the
`Depth` rows, then offer the resulting maximum to the heap.  Returns
(new sketch, in-top-K, next draw index). -/
def Add (H : Hasher) (rnd : Nat → Bool) (j : Nat) (item : String)
    (increment : Nat) (st : Sketch) : Sketch × Bool × Nat :=
  let fingerprint := Fingerprint H item
  let folded := (List.range st.Depth).foldl
    (addRowStep H rnd item fingerprint increment st.Width) (st.Buckets, 0, j)
  let hr := heap.Update st.Heap item fingerprint folded.2.1
  ({ st with Buckets := folded.1, Heap := hr.1 }, hr.2, folded.2.2)

/-- `Sketch.Incr`: `Add(item, 1)`. -/
def Incr (H : Hasher) (rnd : Nat → Bool) (j : Nat) (item : String)
    (st : Sketch) : Sketch × Bool × Nat :=
  Add H rnd j item 1 st

/-- `Sketch.Query`. -/
def Query (st : Sketch) (item : String) : Bool := heap.Contains st.Heap item

/-- `Sketch.Reset` (sketch.go lines 202–206): `clear(me.Buckets)` zeroes
the bucket slice in place, `clear(me.Heap.Items)` zeroes the heap array
in place (keeping its length), and `clear(me.Heap.Index)` empties the
map.  `StoredKeysBytes` is not touched. -/
def Reset (st : Sketch) : Sketch :=
  { st with
    Buckets := List.replicate st.Buckets.length ⟨0, 0⟩
    Heap := { st.Heap with
      Items := List.replicate st.Heap.Items.length heap.zeroItem
      Index := [] } }

end topk

/-- Go `uint32` subtraction `a - b` (wrapping), for `a, b < 2^32`. -/
def sub32 (a b : Nat) : Nat := (a + U32 - b % U32) % U32

namespace sliding

/-- Sliding-window bucket (sliding `Bucket` file): a ring of
`BucketHistoryLength` counters with head `First`, plus the running
`CountsSum`. -/
structure Bucket where
  Fingerprint : Nat
  Counts : List Nat
  First : Nat
  CountsSum : Nat
deriving Repr, DecidableEq

/-- The zero bucket value (also what `clear(me.Buckets)` leaves behind:
note the `Counts` slice becomes nil, i.e. the empty list). -/
def zeroBucket : Bucket := ⟨0, [], 0, 0⟩

/-- `Bucket.tick` (sliding bucket file, lines 13–27): if the sum is
zero do nothing; otherwise expire the slot just before `First`
(wrapping), subtract it from the sum, zero it, and move `First` there.
(For `CountsSum ≠ 0` the ring is nonempty in every reachable state; on
an impossible `CountsSum ≠ 0 ∧ Counts = []` state Go would panic via a
huge `uint32(len-1)` index while this model no-ops — all theorems
assume well-formed rings.) -/
def tick (b : Bucket) : Bucket :=
  if b.CountsSum = 0 then b
  else
    let last := if b.First = 0 then b.Counts.length - 1 else b.First - 1
    { b with
      CountsSum := sub32 b.CountsSum (b.Counts.getD last 0)
      Counts := b.Counts.set last 0
      First := last }

/-- Scan loop of `Bucket.findNonzeroMinimumCount`: walk `steps` slots
starting at `i` (wrapping when the index reaches `len(counts)`),
tracking the smallest nonzero counter seen (`best = none` plays the
role of the source's `first` flag; earlier slots win ties). -/
def scanNZMin (counts : List Nat) (i steps : Nat)
    (best : Option (Nat × Nat)) : Option (Nat × Nat) :=
  match steps with
  | 0 => best
  | s + 1 =>
    let i' := if i = counts.length then 0 else i
    let c := counts.getD i' 0
    if c = 0 then scanNZMin counts (i' + 1) s best
    else
      match best with
      | none => scanNZMin counts (i' + 1) s (some (i', c))
      | some bi =>
        if c < bi.2 then scanNZMin counts (i' + 1) s (some (i', c))
        else scanNZMin counts (i' + 1) s best

/-- `Bucket.findNonzeroMinimumCount` (sliding bucket file, lines
29–51), on the bucket's `(Counts, First)`: index of the smallest
nonzero counter, ties broken toward the slot nearest after `First`;
`0` when every counter is zero. -/
def findNonzeroMinimumCount (counts : List Nat) (first : Nat) : Nat :=
  match scanNZMin counts first counts.length none with
  | some bi => bi.1
  | none => 0

/-- The sliding sketch `sliding.Sketch` (sliding/sketch.go). -/
structure Sketch where
  K : Nat
  Width : Nat
  Depth : Nat
  WindowSize : Nat
  BucketHistoryLength : Nat
  Decay : ℚ
  DecayLUT : List ℚ
  NextBucketToExpireIndex : Nat
  Buckets : List Bucket
  Heap : heap.Min
deriving Repr, DecidableEq

/-- Functional option `sliding.WithWidth`. -/
def WithWidth (w : Nat) : Sketch → Sketch := fun s => { s with Width := w }

/-- Functional option `sliding.WithDepth`. -/
def WithDepth (d : Nat) : Sketch → Sketch := fun s => { s with Depth := d }

/-- Functional option `sliding.WithDecay`. -/
def WithDecay (q : ℚ) : Sketch → Sketch := fun s => { s with Decay := q }

/-- Functional option `sliding.WithDecayLUTSize`. -/
def WithDecayLUTSize (n : Nat) : Sketch → Sketch :=
  fun s => { s with DecayLUT := List.replicate n 0 }

/-- Functional option `sliding.WithBucketHistoryLength`. -/
def WithBucketHistoryLength (n : Nat) : Sketch → Sketch :=
  fun s => { s with BucketHistoryLength := n }

/-- `Sketch.initBuckets`: `Width*Depth` buckets, each with a
`BucketHistoryLength`-long zero ring. -/
def initBuckets (s : Sketch) : Sketch :=
  let b : Bucket := ⟨0, List.replicate s.BucketHistoryLength 0, 0, 0⟩
  { s with Buckets := List.replicate (s.Width * s.Depth) b }

/-- `Sketch.initDecayLUT`, as in the plain variant. -/
def initDecayLUT (s : Sketch) : Sketch :=
  { s with DecayLUT := (List.range s.DecayLUT.length).map (fun i => s.Decay ^ i) }

/-- `sliding.New(k, windowSize, opts...)` (sliding/sketch.go lines
45–80) with the float-computed `log_k := int(math.Log(float64(k)))`
and `k_log_k := int(float64(k) * math.Log(float64(k)))` passed in.
After the options: an empty LUT defaults to length 256, and
`BucketHistoryLength` is clamped into `[1, WindowSize]` (`< 1` becomes
`1`, then `≥ WindowSize` becomes `WindowSize`). -/
def NewAux (log_k k_log_k : Int) (k windowSize : Nat)
    (opts : List (Sketch → Sketch)) : Sketch :=
  let out : Sketch :=
    { K := k
      Width := (max 256 k_log_k).toNat
      Depth := (max 3 log_k).toNat
      WindowSize := windowSize
      BucketHistoryLength := windowSize
      Decay := 9 / 10
      DecayLUT := []
      NextBucketToExpireIndex := 0
      Buckets := []
      Heap := heap.NewMin 0 }
  let out := opts.foldl (fun s o => o s) out
  let out := if out.DecayLUT.length = 0
    then { out with DecayLUT := List.replicate 256 0 } else out
  let out := if out.BucketHistoryLength < 1
    then { out with BucketHistoryLength := 1 } else out
  let out := if out.BucketHistoryLength ≥ out.WindowSize
    then { out with BucketHistoryLength := out.WindowSize } else out
  let out := { out with Heap := heap.NewMin out.K }
  initDecayLUT (initBuckets out)

/-- `int(math.Log(float64(k)))` of `sliding.New`: Go truncation toward
zero of the float64 log, i.e. the floor for `k ≥ 1` (exact-real model,
as in `topk.goCeilLogK`). -/
noncomputable def goFloorLogK (k : Nat) : Int := ⌊Real.log k⌋

/-- `int(float64(k) * math.Log(float64(k)))` of `sliding.New`. -/
noncomputable def goFloorKLogK (k : Nat) : Int := ⌊(k : ℝ) * Real.log k⌋

/-- `sliding.New(k, windowSize, opts...)`. -/
noncomputable def New (k windowSize : Nat) (opts : List (Sketch → Sketch)) :
    Sketch :=
  NewAux (goFloorLogK k) (goFloorKLogK k) k windowSize opts

/-- Maximum `CountsSum` over the `Depth` rows among buckets whose
fingerprint matches: the bucket-scan shared by `Sketch.Count` and
`Sketch.recountHeapItems`. -/
def maxSumFor (H : topk.Hasher) (st : Sketch) (item : String)
    (fingerprint : Nat) : Nat :=
  (List.range st.Depth).foldl
    (fun mx i =>
      let b := st.Buckets.getD (topk.BucketIndex H item i st.Width) zeroBucket
      if b.Fingerprint ≠ fingerprint then mx else max mx b.CountsSum)
    0

/-- `Sketch.Count` (sliding/sketch.go lines 132–152). -/
def Count (H : topk.Hasher) (st : Sketch) (item : String) : Nat :=
  let viaHeap : Option Nat :=
    match heap.Find st.Heap item with
    | some i =>
      let b := st.Heap.Items.getD i heap.zeroItem
      if b.Item = item then some b.Count else none
    | none => none
  match viaHeap with
  | some c => c
  | none => maxSumFor H st item (topk.Fingerprint H item)

/-- `Sketch.recountHeapItems`: refresh every nonzero heap entry's count
from its buckets, then `Heap.Reinit`. -/
def recountHeapItems (H : topk.Hasher) (st : Sketch) : Sketch :=
  let items' := st.Heap.Items.map (fun hb =>
    if hb.Count = 0 then hb
    else { hb with Count := maxSumFor H st hb.Item hb.Fingerprint })
  { st with Heap := heap.Reinit { st.Heap with Items := items' } }

/-- The aging walk of `Sketch.Ticks`: apply `Bucket.tick` to the bucket
under the cursor, advance the cursor (wrapping at `m`), `steps`
times. -/
def tickWalk (m : Nat) (bs : List Bucket) (t : Nat) : Nat → List Bucket × Nat
  | 0 => (bs, t)
  | s + 1 => tickWalk m (listModify bs t tick) (if t + 1 = m then 0 else t + 1) s

/-- `bucketsToAge` of `Sketch.Ticks`: `(n*d*m)/N` floored, clamped
below to 1.  (`WindowSize = 0` would be a division-by-zero panic in
Go; `Nat` division returns 0 and the clamp makes this 1 — theorems
assume `WindowSize ≥ 1`.) -/
def bucketsToAge (n : Nat) (st : Sketch) : Nat :=
  max 1 (n * st.BucketHistoryLength * st.Buckets.length / st.WindowSize)

/-- `Sketch.Ticks(n)` (sliding/sketch.go lines 110–129): no-op for
`n = 0`; otherwise walk the aging cursor `bucketsToAge` positions and
refresh the heap. -/
def Ticks (H : topk.Hasher) (n : Nat) (st : Sketch) : Sketch :=
  if n = 0 then st
  else
    let w := tickWalk st.Buckets.length st.Buckets
      st.NextBucketToExpireIndex (bucketsToAge n st)
    recountHeapItems H { st with Buckets := w.1, NextBucketToExpireIndex := w.2 }

/-- `Sketch.Tick`: `Ticks(1)`. -/
def Tick (H : topk.Hasher) (st : Sketch) : Sketch := Ticks H 1 st

/-- The Bernoulli decay loop of the sliding `Sketch.Add` collision
case.  Per accepted draw it decrements the nonzero-minimum ring slot
(uint32 wrap via `sub32`, though the slot is provably nonzero in
well-formed states) and the running `count`; if `count` reaches zero
the bucket is claimed: the remaining increment goes into slot 0 — the
source's known quirk of not using `First` here — and the loop breaks.
Out-of-bounds ring accesses (`Counts[idx]--`, `Counts[0] = ...`) are
modelled as `none` = panic.  Returns (ring, count, claimed?, next draw
index). -/
def decayLoopS (rnd : Nat → Bool) (j : Nat) (counts : List Nat)
    (first count rem : Nat) : Option (List Nat × Nat × Bool × Nat) :=
  match rem with
  | 0 => some (counts, count, false, j)
  | r + 1 =>
    if rnd j then
      let idx := findNonzeroMinimumCount counts first
      match counts[idx]? with
      | none => none
      | some e =>
        let counts' := counts.set idx (sub32 e 1)
        let count' := count - 1
        if count' = 0 then
          match counts'[0]? with
          | none => none
          | some _ => some (counts'.set 0 (r + 1), r + 1, true, j + 1)
        else decayLoopS rnd (j + 1) counts' first count' r
    else decayLoopS rnd (j + 1) counts first count r

/-- One row of the sliding `Sketch.Add` loop (sliding/sketch.go lines
195–244), on the accumulator (buckets, running max, draw index), with
`none` = panic.  The empty case zeroes the ring and deposits at
`First`; the hit case adds at `First` (uint32 wrap on both the slot
and the sum); the collision case runs the decay loop and — unlike the
plain sketch — only contributes to the heap estimate when the bucket
was claimed.  Ring accesses out of bounds (`Counts[First]` on a nil
ring, as after `Reset`) are `none`. -/
def addRowStep (H : topk.Hasher) (rnd : Nat → Bool) (item : String)
    (fingerprint increment width : Nat)
    (acc : Option (List Bucket × Nat × Nat)) (i : Nat) :
    Option (List Bucket × Nat × Nat) :=
  match acc with
  | none => none
  | some a =>
    let bs := a.1
    let mx := a.2.1
    let jj := a.2.2
    let k := topk.BucketIndex H item i width
    let b := bs.getD k zeroBucket
    if b.CountsSum = 0 then
      match b.Counts[b.First]? with
      | none => none
      | some _ =>
        let b' : Bucket := ⟨fingerprint,
          (List.replicate b.Counts.length 0).set b.First increment,
          b.First, increment⟩
        some (bs.set k b', max mx increment, jj)
    else if b.Fingerprint = fingerprint then
      match b.Counts[b.First]? with
      | none => none
      | some e =>
        let c := (b.CountsSum + increment) % U32
        let b' : Bucket := ⟨b.Fingerprint,
          b.Counts.set b.First ((e + increment) % U32), b.First, c⟩
        some (bs.set k b', max mx c, jj)
    else
      match decayLoopS rnd jj b.Counts b.First b.CountsSum increment with
      | none => none
      | some r =>
        let cs := r.1
        let c := r.2.1
        let claimed := r.2.2.1
        let j' := r.2.2.2
        let b' : Bucket := ⟨if claimed then fingerprint else b.Fingerprint,
          cs, b.First, c⟩
        some (bs.set k b', if claimed then max mx c else mx, j')

/-- `Sketch.Add` (sliding/sketch.go lines 190–247): fold `addRowStep`
over the `Depth` rows, then offer the resulting maximum to the heap;
`none` = panic. -/
def Add (H : topk.Hasher) (rnd : Nat → Bool) (j : Nat) (item : String)
    (increment : Nat) (st : Sketch) : Option (Sketch × Bool × Nat) :=
  let fingerprint := topk.Fingerprint H item
  match (List.range st.Depth).foldl
      (addRowStep H rnd item fingerprint increment st.Width)
      (some (st.Buckets, 0, j)) with
  | none => none
  | some a =>
    let hr := heap.Update st.Heap item fingerprint a.2.1
    some ({ st with Buckets := a.1, Heap := hr.1 }, hr.2, a.2.2)

/-- `Sketch.Incr`: `Add(item, 1)`. -/
def Incr (H : topk.Hasher) (rnd : Nat → Bool) (j : Nat) (item : String)
    (st : Sketch) : Option (Sketch × Bool × Nat) :=
  Add H rnd j item 1 st

/-- `Sketch.Query`. -/
def Query (st : Sketch) (item : String) : Bool := heap.Contains st.Heap item

/-- `Sketch.Reset` (sliding/sketch.go lines 289–298): the cursor is
zeroed and each bucket's fields are zeroed in place — but the trailing
`clear(me.Buckets)` then zeroes the `Bucket` structs themselves, which
sets every `Counts` slice to nil (the empty list here).  The heap is
reset via `Heap.Reset`. -/
def Reset (st : Sketch) : Sketch :=
  { st with
    NextBucketToExpireIndex := 0
    Buckets := List.replicate st.Buckets.length zeroBucket
    Heap := heap.Reset st.Heap }

end sliding

namespace heap

/-- Modelled from the spec (§4.6 / claim C3): the four-case update rule
exactly as the claim states it, with full-ness meaning
`len(Items) = K`:
1. full and `count < root.count`: reject, return false;
2. else, item already present: overwrite that entry's count in place,
   re-sift, return true;
3. else, not full: push a new entry, return true;
4. else: evict the root (removing its index entry), write the new entry
   at position 0, sift down (a `Fix` at the root: `up` from position 0
   is the identity), return true.
The `StoredKeysBytes` bookkeeping, on which the spec is silent, is
carried exactly as the code does so that whole states stay
comparable. -/
def UpdateSpec (h : Min) (item : String) (fingerprint count : Nat) :
    Min × Bool :=
  if h.Items.length = h.k ∧ count < (h.Items.getD 0 zeroItem).Count then
    (h, false)
  else
    match Find h item with
    | some i =>
      let items' := listModify h.Items i (fun b => { b with Count := count })
      (Fix { h with Items := items' } i, true)
    | none =>
      let h := { h with StoredKeysBytes := h.StoredKeysBytes + item.length }
      if h.Items.length ≠ h.k then (Push h ⟨fingerprint, item, count⟩, true)
      else
        let minItem := (h.Items.getD 0 zeroItem).Item
        let h := { h with
          StoredKeysBytes := h.StoredKeysBytes - minItem.length
          Index := mapDelete h.Index minItem }
        let h := { h with
          Items := h.Items.set 0 ⟨fingerprint, item, count⟩
          Index := mapInsert h.Index item 0 }
        (Fix h 0, true)

end heap

/-- Modelled from the spec: the claim C9 default depth formula
`D = max(3, ⌈ln K⌉)`, over the exact real logarithm. -/
noncomputable def specDefaultDepth (k : Nat) : Int := max 3 ⌈Real.log k⌉

/-- Modelled from the spec: the claim C9 default width formula
`W = max(256, ⌊K · ln K⌋)`, over the exact real logarithm. -/
noncomputable def specDefaultWidth (k : Nat) : Int :=
  max 256 ⌊(k : ℝ) * Real.log k⌋

namespace topk

/-- The width default the plain `New` actually computes:
`max(256, K · ⌈ln K⌉)` with `log_k = int(math.Ceil(math.Log(k)))`. -/
noncomputable def plainDefaultWidth (k : Nat) : Int :=
  max 256 ((k : Int) * goCeilLogK k)

/-- The depth default the plain `New` actually computes:
`max(3, ⌈ln K⌉)`. -/
noncomputable def plainDefaultDepth (k : Nat) : Int := max 3 (goCeilLogK k)

/-- Well-formedness of a plain sketch's counters: every stored bucket
count is a `uint32` value. -/
def CountsWF (st : Sketch) : Prop := ∀ b ∈ st.Buckets, b.Count < U32

instance decidableCountsWF (st : Sketch) : Decidable (CountsWF st) :=
  inferInstanceAs (Decidable (∀ b ∈ st.Buckets, b.Count < U32))

end topk

namespace sliding

/-- The width default the sliding `New` actually computes:
`max(256, ⌊K · ln K⌋)`. -/
noncomputable def slidingDefaultWidth (k : Nat) : Int :=
  max 256 (goFloorKLogK k)

/-- The depth default the sliding `New` actually computes:
`max(3, ⌊ln K⌋)` with `log_k = int(math.Log(k))`. -/
noncomputable def slidingDefaultDepth (k : Nat) : Int :=
  max 3 (goFloorLogK k)

/-- Claim C8's sum invariant read as Go `uint32` equality: the scalar
`CountsSum` equals the ring's sum modulo 2^32. -/
def SumInvMod (st : Sketch) : Prop :=
  ∀ b ∈ st.Buckets, b.CountsSum = b.Counts.sum % U32

/-- Exact well-formedness of a sliding bucket, as holds in every
overflow-free reachable state: the ring head is in bounds, every
counter is a `uint32` value, and `CountsSum` equals the ring's exact
sum, which itself fits in a `uint32`. -/
def BucketWF (b : Bucket) : Prop :=
  b.First < b.Counts.length ∧ (∀ c ∈ b.Counts, c < U32) ∧
    b.CountsSum = b.Counts.sum ∧ b.Counts.sum < U32

/-- Exact well-formedness of every bucket of a sliding sketch. -/
def SketchWF (st : Sketch) : Prop := ∀ b ∈ st.Buckets, BucketWF b

/-- Project the post-state out of a sliding `Add` result, for chaining
concrete computations (the default never fires in the chains below:
every step is `some`). -/
def addState (st : Sketch) (o : Option (Sketch × Bool × Nat)) : Sketch :=
  (o.map (fun r => r.1)).getD st

instance decidableSumInvMod (st : Sketch) : Decidable (SumInvMod st) :=
  inferInstanceAs
    (Decidable (∀ b ∈ st.Buckets, b.CountsSum = b.Counts.sum % U32))

instance decidableBucketWF (b : Bucket) : Decidable (BucketWF b) :=
  inferInstanceAs (Decidable (_ ∧ _ ∧ _ ∧ _))

instance decidableSketchWF (st : Sketch) : Decidable (SketchWF st) :=
  inferInstanceAs (Decidable (∀ b ∈ st.Buckets, BucketWF b))

end sliding

/-- Concrete hash functions for the counterexample computations:
distinct fingerprints for the items used, every row hash 0 (each item
lands in column 0 of every row).  Legitimate because hashing is an
injected external collaborator; the claims' no-collision hypotheses
hold because all fingerprints are distinct. -/
def testHasher : topk.Hasher where
  fp := fun s =>
    if s = "a" then 1 else if s = "b" then 2 else if s = "c" then 3
    else if s = "x" then 7 else 9
  row := fun _ _ => 0

namespace topk

/-- Go entry point `New(k int, opts...)` over the full `int` domain of
`k`.  `New` performs no validation of its own, but for `k < 0`
construction aborts with a runtime panic before returning: it calls
`heap.NewMin(k)`, whose `make([]Item, k)` (and
`make(map[string]int, k)`) rejects a negative length — modelled
`none`.  For `k ≥ 0` no allocation size is negative and construction
completes, so the result is the `Nat`-bodied `New`. -/
noncomputable def NewGo (k : Int) (opts : List (Sketch → Sketch)) :
    Option Sketch :=
  if k < 0 then none else some (New k.toNat opts)

end topk

namespace sliding

/-- Go entry point `sliding.New(k, windowSize int, opts...)` over the
full `int` domain.  For `k < 0` the `make([]Item, k)` inside
`heap.NewMin` panics, as in the plain variant.  For `windowSize < 0`
the clamp pair writes the negative `windowSize` back into
`bucketHistoryLength` (`bucketHistoryLength < 1` first sets it to 1,
then `1 >= windowSize` holds and re-assigns `windowSize`), so the ring
allocation `make([]uint32, bucketHistoryLength)` of the first bucket
panics.  Both aborts are modelled `none`.  The `windowSize` guard
assumes the option list leaves the bucket grid nonempty, so that at
least one ring is allocated — true of every default (`Width ≥ 256`,
`Depth ≥ 3` before options) and of every option list used in this
development.  For nonnegative parameters construction completes as the
`Nat`-bodied `New`. -/
noncomputable def NewGo (k windowSize : Int)
    (opts : List (Sketch → Sketch)) : Option Sketch :=
  if k < 0 then none
  else if windowSize < 0 then none
  else some (New k.toNat windowSize.toNat opts)

end sliding

/-! ### Lemmas and claim theorems -/

theorem listModify_length (l : List α) (i : Nat) (f : α → α) :
    (listModify l i f).length = l.length := by
  unfold listModify
  split <;> simp

theorem listModify_getElem? (l : List α) (i : Nat) (f : α → α) (j : Nat) :
    (listModify l i f)[j]? =
      if i = j then (l[j]?).map f else l[j]? := by
  unfold listModify
  split
  · next hlt =>
    by_cases hij : i = j
    · subst hij
      rw [List.getElem?_set_self', List.getElem?_eq_getElem hlt]
      simp
    · rw [List.getElem?_set_ne hij]
      simp [hij]
  · next hge =>
    by_cases hij : i = j
    · subst hij
      have hn : l[i]? = none := by
        simp [List.getElem?_eq_none_iff]; omega
      simp [hn]
    · simp [hij]

/-- C1.  The claim asserts `Count(x) ≤` the exact total of increments
for `x`, for every hash without (bucket, fingerprint) collisions and
every randomness outcome.  The code violates it: in `Sketch.Add` the
running maximum is updated outside the case switch (sketch.go line
156), so a collision that does not claim the bucket still contributes
the *foreign* bucket's count to the estimate offered to the heap.
Failing input: plain sketch, Width = 1, Depth = 1; stream
`Add("a", 5); Add("b", 1)` with every Bernoulli decrement refused
(realisable by uniform draws x = 0.99 ≥ 0.9^c).  The fingerprints of
"a" and "b" differ, yet `Count("b") = 5` although "b" received a
single increment.  (The repository's own `TestSketchErrorBounds`
asserts that only under-estimation errors may occur.) -/
theorem C1_overestimation_failure :
    topk.Fingerprint testHasher "a" ≠ topk.Fingerprint testHasher "b" ∧
    topk.Count testHasher
      ((topk.Add testHasher (fun _ => false) 0 "b" 1
        ((topk.Add testHasher (fun _ => false) 0 "a" 5
          (topk.New 1 [topk.WithWidth 1, topk.WithDepth 1])).1)).1) "b"
      = 5 := by
  decide

/-- C2, counterexample.  Sliding sketch with N = 3, d = 1, m = W·D = 4:
three `Ticks(1)` calls (each nᵢ = 1 > 0, Σ nᵢ = N) advance the cursor
by 1 each (`⌊(1·1·4)/3⌋ = 1`, no remainder is carried), for a total of
3 positions — not the claimed d·m = 4; the cursor ends at 3, which is
not a multiple of m = 4 away from its start 0. -/
theorem C2_counterexample :
    let st := sliding.New 1 3
      [sliding.WithWidth 4, sliding.WithDepth 1,
       sliding.WithBucketHistoryLength 1]
    let st3 := sliding.Ticks testHasher 1
      (sliding.Ticks testHasher 1 (sliding.Ticks testHasher 1 st))
    st.WindowSize = 3 ∧ st.BucketHistoryLength = 1 ∧
    st.Buckets.length = 4 ∧ st.NextBucketToExpireIndex = 0 ∧
    sliding.bucketsToAge 1 st = 1 ∧
    st3.NextBucketToExpireIndex = 3 ∧ ¬ (3 % 4 = 0) := by
  decide

/-- C4.  After `Sketch.Reset` of the sliding sketch, every bucket's
`Counts` ring is the nil slice — the trailing `clear(me.Buckets)`
(sliding/sketch.go line 296) zeroes the bucket structs and discards
the rings that the preceding per-bucket loop had carefully kept — so
the next `Add` indexes `Counts[First]` out of bounds and panics
(`none` here), while the same `Add` succeeds before `Reset`.  The
claim's `Count = 0`-after-`Reset` part does hold. -/
theorem C4_reset_breaks_add :
    (sliding.Add testHasher (fun _ => true) 0 "x" 1
      (sliding.New 1 2 [sliding.WithWidth 1, sliding.WithDepth 1])).isSome
        = true ∧
    (∀ b ∈ (sliding.Reset (sliding.New 1 2
        [sliding.WithWidth 1, sliding.WithDepth 1])).Buckets,
      b.Counts.length = 0) ∧
    sliding.Add testHasher (fun _ => true) 0 "x" 1
      (sliding.Reset (sliding.New 1 2
        [sliding.WithWidth 1, sliding.WithDepth 1])) = none ∧
    sliding.Count testHasher (sliding.Reset (sliding.New 1 2
      [sliding.WithWidth 1, sliding.WithDepth 1])) "x" = 0 := by
  decide

/-- C5, counterexample.  On a fresh plain sketch (K = 1, W = D = 1),
`Add("a", 0)` is *not* a no-op: it claims the empty bucket's
fingerprint, and — because the heap is pre-filled with K zero-count
placeholder entries, making it full with root count 0 — `Update`
replaces the placeholder root with ("a", 0) and returns true, although
"a" was not in the top-K before the call. -/
theorem C5_counterexample :
    let st := topk.New 1 [topk.WithWidth 1, topk.WithDepth 1]
    let r := topk.Add testHasher (fun _ => true) 0 "a" 0 st
    topk.Query st "a" = false ∧
    r.2.1 = true ∧
    r.1.Heap.Items ≠ st.Heap.Items ∧
    r.1.Heap.Index ≠ st.Heap.Index ∧
    r.1.Buckets ≠ st.Buckets := by
  decide

/-- C6, counterexample.  `topk.New(5, WithDecay(2))` has Decay
p = 2 ∉ (0,1), an invalid configuration by the claim, yet construction
does not signal any error: it returns a fully functioning sketch that
stores the invalid decay and accepts `Add`. -/
theorem C6_counterexample :
    let st := topk.New 5
      [topk.WithWidth 2, topk.WithDepth 1, topk.WithDecay 2]
    ¬ (0 < st.Decay ∧ st.Decay < 1) ∧
    st.K = 5 ∧ st.Decay = 2 ∧ st.Buckets.length = 2 ∧
    st.Heap.Items.length = 5 ∧
    (topk.Add testHasher (fun _ => true) 0 "a" 1 st).2.1 = true := by
  decide

/-- C7, counterexample.  Plain sketch K = 2, W = D = 1.  After
`Add(a,3); Add(b,5); Add(c,10)` (all decays accepted) and `Add(b,2)`
(decays refused), the heap holds b and c with count 8 each, while the
single bucket belongs to c with count 8.  The final `Add(b,3)` (decays
accepted) decrements the foreign bucket to 5 and offers 5 to the heap,
which rejects it (5 < root 8, heap full) and returns false — yet "b"
is still in the top-K heap, so the returned boolean differs from
`Query("b")` immediately after the call. -/
theorem C7_counterexample :
    let st := topk.New 2 [topk.WithWidth 1, topk.WithDepth 1]
    let e1 := topk.Add testHasher (fun _ => true) 0 "a" 3 st
    let e2 := topk.Add testHasher (fun _ => true) 0 "b" 5 e1.1
    let e3 := topk.Add testHasher (fun _ => true) 0 "c" 10 e2.1
    let e4 := topk.Add testHasher (fun _ => false) 0 "b" 2 e3.1
    let e5 := topk.Add testHasher (fun _ => true) 0 "b" 3 e4.1
    e5.2.1 = false ∧ topk.Query e5.1 "b" = true := by
  decide

/-- C8, counterexample.  Reachable through the public API with large
increments: sliding sketch K = 1, N = 2, W = D = 1, d = 2.
`Add(x, 2^32−2); Tick; Add(x, 1); Add(x, 2)` leaves the bucket ring at
`[2^32−2, 3]` with `CountsSum = 1` (the uint32 sum wrapped; the mod-2^32
sum invariant still holds).  The next `Add(y, 1)` with the Bernoulli
decrement accepted takes the collision path: one decrement zeroes the
tracked count, the bucket is claimed mid-increment and slot 0 is
overwritten with the remaining increment — leaving ring `[1, 2]` with
`CountsSum = 1 ≠ (1+2) % 2^32`.  The mid-increment claim path thus
breaks the invariant the claim says it preserves. -/
theorem C8_counterexample :
    let st0 := sliding.New 1 2 [sliding.WithWidth 1, sliding.WithDepth 1]
    let s1 := sliding.addState st0
      (sliding.Add testHasher (fun _ => false) 0 "x" 4294967294 st0)
    let s2 := sliding.Tick testHasher s1
    let s3 := sliding.addState st0
      (sliding.Add testHasher (fun _ => false) 0 "x" 1 s2)
    let s4 := sliding.addState st0
      (sliding.Add testHasher (fun _ => false) 0 "x" 2 s3)
    let r5 := sliding.Add testHasher (fun _ => true) 0 "y" 1 s4
    let s5 := sliding.addState st0 r5
    sliding.SumInvMod s4 ∧
    s4.Buckets = [⟨7, [4294967294, 3], 1, 1⟩] ∧
    r5.isSome = true ∧
    s5.Buckets = [⟨9, [1, 2], 1, 1⟩] ∧
    ¬ sliding.SumInvMod s5 := by
  decide


/-- C10.  Bucket counters are 32-bit and `Add` performs unchecked
(wrapping) addition.  First part: for any single-bucket sketch whose
bucket already holds the item's fingerprint with count `c`,
`Add(item, u)` stores `(c + u) % 2^32`, offers exactly that value to
the heap, and when `c + u ≥ 2^32` the stored count is strictly below
`c`.  Second part: concretely, `Add("a", 2^32-1)` then `Add("a", 1)`
drives `Count("a")` from `2^32-1` down to `0` (and the wrapping `Add`
even returns true). -/
theorem C10_unchecked_wraparound :
    (∀ (H : topk.Hasher) (rnd : Nat → Bool) (j : Nat) (item : String)
        (c u : Nat) (st : topk.Sketch),
      st.Width = 1 → st.Depth = 1 →
      st.Buckets = [⟨topk.Fingerprint H item, c⟩] →
      c < U32 → u < U32 →
      ((topk.Add H rnd j item u st).1.Buckets
          = [⟨topk.Fingerprint H item, (c + u) % U32⟩] ∧
        (topk.Add H rnd j item u st).1.Heap
          = (heap.Update st.Heap item (topk.Fingerprint H item)
              ((c + u) % U32)).1 ∧
        (U32 ≤ c + u → (c + u) % U32 < c))) ∧
    ((topk.Count testHasher
        ((topk.Add testHasher (fun _ => false) 0 "a" 4294967295
          (topk.New 2 [topk.WithWidth 1, topk.WithDepth 1])).1) "a"
        = 4294967295) ∧
      ((topk.Add testHasher (fun _ => false) 0 "a" 1
        ((topk.Add testHasher (fun _ => false) 0 "a" 4294967295
          (topk.New 2 [topk.WithWidth 1, topk.WithDepth 1])).1)).2.1
        = true) ∧
      (topk.Count testHasher
        ((topk.Add testHasher (fun _ => false) 0 "a" 1
          ((topk.Add testHasher (fun _ => false) 0 "a" 4294967295
            (topk.New 2 [topk.WithWidth 1, topk.WithDepth 1])).1)).1) "a"
        = 0)) := by
  constructor
  · intro H rnd j item c u st hW hD hB hc hu
    have hdec : U32 ≤ c + u → (c + u) % U32 < c := by
      intro h
      have h2 : (c + u) % U32 = c + u - U32 := by
        have hlt : c + u - U32 < U32 := by unfold U32 at *; omega
        rw [Nat.mod_eq_sub_mod h, Nat.mod_eq_of_lt hlt]
      unfold U32 at *
      omega
    obtain ⟨K, W, D, dec, lut, bks, hp⟩ := st
    simp only at hW hD hB
    subst hW hD hB
    unfold topk.Add topk.addRowStep
    have hr1 : List.range 1 = [0] := rfl
    simp only [hr1, List.foldl_cons, List.foldl_nil, topk.BucketIndex,
      Nat.mod_one, Nat.zero_mul, Nat.mul_one, Nat.add_zero, Nat.mul_zero]
    by_cases hc0 : c = 0
    · subst hc0
      simp [Nat.mod_eq_of_lt hu]
      exact hu
    · simp [hc0]
      exact hdec
  · refine ⟨by decide, by decide, by decide⟩

/-- Witness for C10: the hypotheses of the universal part hold at a
concrete single-bucket sketch with count 2 and increment 2^32−1, and
the stored count wraps to 1 < 2. -/
theorem C10_unchecked_wraparound_witness :
    (topk.Add testHasher (fun _ => true) 5 "a" 4294967295
      ({ K := 1, Width := 1, Depth := 1, Decay := 9 / 10, DecayLUT := [],
         Buckets := [⟨1, 2⟩], Heap := heap.NewMin 1 } : topk.Sketch)).1.Buckets
      = [⟨topk.Fingerprint testHasher "a", (2 + 4294967295) % U32⟩] ∧
    (2 + 4294967295) % U32 < 2 := by
  have h := C10_unchecked_wraparound.1 testHasher (fun _ => true) 5 "a" 2 4294967295
    { K := 1, Width := 1, Depth := 1, Decay := 9 / 10, DecayLUT := [],
      Buckets := [⟨1, 2⟩], Heap := heap.NewMin 1 }
    rfl rfl (by decide) (by decide) (by decide)
  exact ⟨h.1, h.2.2 (by decide)⟩

/-- C3.  `Min.Update` follows exactly the four-case rule of the
specification, with full-ness meaning `len(Items) = K` (the capacity
`NewMin` allocated): the code's guard `count < Min() && Full()` and
not-full test `!Full()` coincide with the spec's `full ∧ count < root`
and `len ≠ K` whenever the capacity is positive, and the four branches
(reject unchanged / overwrite-and-re-sift / push / evict-root,
write-at-0, sift-down) are identical.  `heap.UpdateSpec` is modelled
from the spec's wording; this theorem proves the code's `heap.Update`
equal to it on every heap state with `k > 0`. -/
theorem C3_update_four_cases (h : heap.Min) (item : String) (fp cnt : Nat)
    (hk : 0 < h.k) :
    heap.Update h item fp cnt = heap.UpdateSpec h item fp cnt := by
  unfold heap.Update heap.UpdateSpec heap.MinVal heap.Full
  have hk0 : ¬ h.k = 0 := by omega
  by_cases hlen : h.Items.length = h.k
  · have hne : ¬ h.Items.length = 0 := by omega
    by_cases hroot : cnt < (h.Items.getD 0 heap.zeroItem).Count
    · simp [hne, hlen, hroot, hk0]
    · simp only [hne, hlen, hroot, hk0, if_false, if_true, ite_false, ite_true,
        beq_self_eq_true, and_true, and_false, not_true, ne_eq]
  · have hbeq : (h.Items.length == h.k) = false := by simp [hlen]
    simp only [hbeq, hlen]
    simp
    cases hf : heap.Find h item <;> simp [hf, hlen]

/-- Witness for C3: a concrete positive-capacity heap. -/
theorem C3_update_four_cases_witness :
    heap.Update (heap.NewMin 2) "a" 1 5
      = heap.UpdateSpec (heap.NewMin 2) "a" 1 5 :=
  C3_update_four_cases (heap.NewMin 2) "a" 1 5 (by decide)

namespace heap

theorem mapLookup_insert (m : List (String × Nat)) (s : String) (v : Nat)
    (t : String) :
    mapLookup (mapInsert m s v) t = if t = s then some v else mapLookup m t := by
  induction m with
  | nil =>
    unfold mapInsert mapLookup
    by_cases hts : t = s
    · simp [hts]
    · have hst : ¬ s = t := fun hh => hts hh.symm
      simp [hts, hst, mapLookup]
  | cons p rest ih =>
    unfold mapInsert
    by_cases hp : p.1 = s
    · simp only [hp, ite_true]
      by_cases hts : t = s
      · simp [mapLookup, hts]
      · have hst : ¬ s = t := fun hh => hts hh.symm
        have hpt : ¬ p.1 = t := fun hh => hst (hp.symm.trans hh)
        simp [mapLookup, hts, hst, hpt]
    · simp only [hp, ite_false]
      unfold mapLookup
      by_cases hpt : p.1 = t
      · have hts : ¬ t = s := fun hh => hp (hpt.trans hh)
        simp [hpt, hts]
      · simp [hpt, ih]

theorem mapLookup_delete (m : List (String × Nat)) (s t : String) :
    mapLookup (mapDelete m s) t = if t = s then none else mapLookup m t := by
  induction m with
  | nil => simp [mapDelete, mapLookup]
  | cons p rest ih =>
    unfold mapDelete
    by_cases hp : p.1 = s
    · rw [if_pos hp, ih]
      by_cases hts : t = s
      · simp [hts]
      · have hpt : ¬ p.1 = t := fun hh => hts (hh.symm.trans hp)
        simp [hts, mapLookup, hpt]
    · rw [if_neg hp]
      unfold mapLookup
      by_cases hpt : p.1 = t
      · have hts : ¬ t = s := fun hh => hp (hpt.trans hh)
        simp [hpt, hts]
      · simp [hpt, ih]

theorem Contains_Swap (h : Min) (i j : Nat) (item : String)
    (hc : Contains h item = true) :
    Contains (Swap h i j) item = true := by
  unfold Contains Find at hc ⊢
  unfold Swap
  dsimp only
  rw [mapLookup_insert]
  split
  · rfl
  · rw [mapLookup_insert]
    split
    · rfl
    · exact hc

theorem Contains_downAux (fuel : Nat) (h : Min) (i n : Nat) (item : String)
    (hc : Contains h item = true) :
    Contains (downAux fuel h i n).1 item = true := by
  induction fuel generalizing h i with
  | zero => exact hc
  | succ fuel ih =>
    unfold downAux
    dsimp only
    repeat' split
    all_goals
      first
        | exact hc
        | exact ih _ _ (Contains_Swap _ _ _ _ hc)

theorem Contains_upAux (fuel : Nat) (h : Min) (j : Nat) (item : String)
    (hc : Contains h item = true) :
    Contains (upAux fuel h j) item = true := by
  induction fuel generalizing h j with
  | zero => exact hc
  | succ fuel ih =>
    unfold upAux
    dsimp only
    split
    · exact hc
    · exact ih _ _ (Contains_Swap _ _ _ _ hc)

theorem Contains_Fix (h : Min) (i : Nat) (item : String)
    (hc : Contains h item = true) :
    Contains (Fix h i) item = true := by
  unfold Fix down
  dsimp only
  split
  · exact Contains_downAux _ _ _ _ _ hc
  · exact Contains_upAux _ _ _ _ (Contains_downAux _ _ _ _ _ hc)

theorem Update_true_contains (h : Min) (item : String) (fp cnt : Nat)
    (hr : (Update h item fp cnt).2 = true) :
    Contains (Update h item fp cnt).1 item = true := by
  unfold Update at hr ⊢
  by_cases hg : cnt < MinVal h ∧ Full h = true
  · rw [if_pos hg] at hr
    simp at hr
  · rw [if_neg hg] at hr ⊢
    cases hf : Find h item with
    | some i =>
      simp only [hf]
      apply Contains_Fix
      unfold Find at hf
      unfold Contains Find
      show (mapLookup h.Index item).isSome = true
      rw [hf]
      rfl
    | none =>
      simp only [hf]
      split
      · unfold Contains Find Push
        show (mapLookup (mapInsert h.Index item h.Items.length) item).isSome
          = true
        rw [mapLookup_insert]
        simp
      · apply Contains_Fix
        unfold Contains Find
        show (mapLookup (mapInsert
          (mapDelete h.Index (h.Items.getD 0 zeroItem).Item) item 0)
            item).isSome = true
        rw [mapLookup_insert]
        simp

theorem Update_false_eq (h : Min) (item : String) (fp cnt : Nat)
    (hr : (Update h item fp cnt).2 = false) :
    (Update h item fp cnt).1 = h := by
  unfold Update at hr ⊢
  by_cases hg : cnt < MinVal h ∧ Full h = true
  · rw [if_pos hg]
  · rw [if_neg hg] at hr
    cases hf : Find h item with
    | some i =>
      simp only [hf] at hr
      simp at hr
    | none =>
      simp only [hf] at hr
      split at hr <;> simp at hr

end heap

/-- C7 (amended).  The boolean returned by `Add(item, u)` relates to
`Query(item)` after the call as follows: a true return implies the
item is in the top-K heap immediately afterwards; a false return means
the offered estimate was rejected and the heap is unchanged — the item
may nonetheless still be in the heap (see `C7_counterexample`), so the
returned boolean does not in general equal `Query` after the call. -/
theorem C7_add_result_semantics (H : topk.Hasher) (rnd : Nat → Bool)
    (j : Nat) (item : String) (inc : Nat) (st : topk.Sketch) :
    ((topk.Add H rnd j item inc st).2.1 = true →
      topk.Query (topk.Add H rnd j item inc st).1 item = true) ∧
    ((topk.Add H rnd j item inc st).2.1 = false →
      (topk.Add H rnd j item inc st).1.Heap = st.Heap) := by
  unfold topk.Add topk.Query
  dsimp only
  constructor
  · intro hr
    exact heap.Update_true_contains _ _ _ _ hr
  · intro hr
    exact heap.Update_false_eq _ _ _ _ hr

/-- Witness for C7: both implications discharged at concrete inputs —
an admitting `Add` (true, and the item is queryable afterwards) and a
rejected `Add` (false, heap unchanged). -/
theorem C7_add_result_semantics_witness :
    (topk.Query (topk.Add testHasher (fun _ => true) 0 "a" 3
      (topk.New 2 [topk.WithWidth 1, topk.WithDepth 1])).1 "a" = true) ∧
    (let e4 := (topk.Add testHasher (fun _ => false) 0 "b" 2
        ((topk.Add testHasher (fun _ => true) 0 "c" 10
          ((topk.Add testHasher (fun _ => true) 0 "b" 5
            ((topk.Add testHasher (fun _ => true) 0 "a" 3
              (topk.New 2 [topk.WithWidth 1, topk.WithDepth 1])).1)).1)).1)).1
     (topk.Add testHasher (fun _ => true) 0 "b" 3 e4).1.Heap = e4.Heap) := by
  constructor
  · exact (C7_add_result_semantics testHasher (fun _ => true) 0 "a" 3
      (topk.New 2 [topk.WithWidth 1, topk.WithDepth 1])).1 (by decide)
  · exact (C7_add_result_semantics testHasher (fun _ => true) 0 "b" 3
      ((topk.Add testHasher (fun _ => false) 0 "b" 2
        ((topk.Add testHasher (fun _ => true) 0 "c" 10
          ((topk.Add testHasher (fun _ => true) 0 "b" 5
            ((topk.Add testHasher (fun _ => true) 0 "a" 3
              (topk.New 2 [topk.WithWidth 1, topk.WithDepth 1])).1)).1)).1)).1)).2
      (by decide)

theorem set_getD_self (l : List α) (i : Nat) (d : α) :
    l.set i (l.getD i d) = l := by
  apply List.ext_getElem?
  intro j
  by_cases hij : i = j
  · subst hij
    rw [List.getElem?_set_self']
    cases h : l[i]? with
    | none => rfl
    | some x => simp [List.getD, List.get?_eq_getElem?, h]
  · rw [List.getElem?_set_ne hij]

theorem map_set_proj (f : α → β) (l : List α) (i : Nat) (x d : α)
    (h : f x = f (l.getD i d)) :
    (l.set i x).map f = l.map f := by
  apply List.ext_getElem?
  intro j
  rw [List.getElem?_map, List.getElem?_map]
  by_cases hij : i = j
  · subst hij
    rw [List.getElem?_set_self']
    cases hl : l[i]? with
    | none => rfl
    | some y =>
      simp only [List.getD, List.get?_eq_getElem?, hl, Option.getD_some] at h
      simp [h]
  · rw [List.getElem?_set_ne hij]

theorem forall_mem_set {P : α → Prop} {l : List α} {i : Nat} {x : α}
    (h : ∀ b ∈ l, P b) (hx : P x) : ∀ b ∈ l.set i x, P b := by
  induction l generalizing i with
  | nil => intro b hb; cases hb
  | cons a t ih =>
    intro b hb
    cases i with
    | zero =>
      rcases List.mem_cons.mp hb with hb | hb
      · exact hb ▸ hx
      · exact h b (List.mem_cons_of_mem a hb)
    | succ i =>
      rcases List.mem_cons.mp hb with hb | hb
      · exact hb ▸ h a (List.mem_cons_self a t)
      · exact ih (fun c hc => h c (List.mem_cons_of_mem a hc)) b hb

theorem getD_mem_or {l : List α} {i : Nat} {d : α} :
    l.getD i d ∈ l ∨ l.getD i d = d := by
  cases hl : l[i]? with
  | none => right; simp [List.getD, List.get?_eq_getElem?, hl]
  | some x =>
    left
    have hx : x ∈ l := by
      have := List.getElem?_eq_some_iff.mp hl
      rcases this with ⟨hlt, hget⟩
      exact hget ▸ List.getElem_mem hlt
    simpa [List.getD, List.get?_eq_getElem?, hl] using hx

theorem plain_addZero_fold (H : topk.Hasher) (rnd : Nat → Bool)
    (item : String) (fp width : Nat) (rows : List Nat) :
    ∀ (bs : List topk.Bucket) (mx jj : Nat),
      (∀ b ∈ bs, b.Count < U32) →
      ((rows.foldl (topk.addRowStep H rnd item fp 0 width) (bs, mx, jj)).1.map
          topk.Bucket.Count = bs.map topk.Bucket.Count ∧
        (rows.foldl (topk.addRowStep H rnd item fp 0 width) (bs, mx, jj)).2.2 = jj ∧
        ∀ b ∈ (rows.foldl (topk.addRowStep H rnd item fp 0 width) (bs, mx, jj)).1,
          b.Count < U32) := by
  induction rows with
  | nil => intro bs mx jj hwf; exact ⟨rfl, rfl, hwf⟩
  | cons i rows ih =>
    intro bs mx jj hwf
    rw [List.foldl_cons]
    have hb : (bs.getD (topk.BucketIndex H item i width) ⟨0, 0⟩).Count < U32 := by
      rcases getD_mem_or (l := bs) (i := topk.BucketIndex H item i width)
          (d := (⟨0, 0⟩ : topk.Bucket)) with hm | he
      · exact hwf _ hm
      · rw [he]
        show (0 : Nat) < U32
        unfold U32
        omega
    have hstep : ∃ b' : topk.Bucket,
        topk.addRowStep H rnd item fp 0 width (bs, mx, jj) i
          = (bs.set (topk.BucketIndex H item i width) b',
             max mx b'.Count, jj) ∧
        b'.Count = (bs.getD (topk.BucketIndex H item i width) ⟨0, 0⟩).Count := by
      unfold topk.addRowStep
      dsimp only
      set b := bs.getD (topk.BucketIndex H item i width) ⟨0, 0⟩ with hbdef
      by_cases h0 : b.Count = 0
      · refine ⟨⟨fp, 0⟩, ?_, ?_⟩
        · simp [h0]
        · simp [h0]
      · by_cases hfp : b.Fingerprint = fp
        · refine ⟨⟨b.Fingerprint, (b.Count + 0) % U32⟩, ?_, ?_⟩
          · simp [h0, hfp]
          · simp [Nat.mod_eq_of_lt hb]
        · refine ⟨⟨b.Fingerprint, b.Count⟩, ?_, ?_⟩
          · simp [h0, hfp, topk.decayLoop]
          · rfl
    rcases hstep with ⟨b', hstep, hcnt⟩
    rw [hstep]
    have hmap : (bs.set (topk.BucketIndex H item i width) b').map topk.Bucket.Count
        = bs.map topk.Bucket.Count :=
      map_set_proj _ _ _ _ _ hcnt
    have hwf' : ∀ b ∈ bs.set (topk.BucketIndex H item i width) b', b.Count < U32 :=
      forall_mem_set hwf (by rw [hcnt]; exact hb)
    rcases ih _ (max mx b'.Count) jj hwf' with ⟨h1, h2, h3⟩
    exact ⟨h1.trans hmap, h2, h3⟩

theorem getD_eq_getElem_of_lt {l : List α} {i : Nat} {d : α} (h : i < l.length) :
    l.getD i d = l[i] := by
  simp [List.getD, List.get?_eq_getElem?, List.getElem?_eq_getElem h]

theorem sliding_addZero_fold (H : topk.Hasher) (rnd : Nat → Bool)
    (item : String) (fp width : Nat) (rows : List Nat) :
    ∀ (bs : List sliding.Bucket) (mx jj : Nat),
      (∀ b ∈ bs, sliding.BucketWF b) →
      (∀ i ∈ rows, topk.BucketIndex H item i width < bs.length) →
      ∃ bs' mx',
        rows.foldl (sliding.addRowStep H rnd item fp 0 width)
            (some (bs, mx, jj)) = some (bs', mx', jj) ∧
        bs'.map sliding.Bucket.CountsSum = bs.map sliding.Bucket.CountsSum ∧
        bs'.length = bs.length ∧
        (∀ b ∈ bs', sliding.BucketWF b) := by
  induction rows with
  | nil =>
    intro bs mx jj hwf _
    exact ⟨bs, mx, rfl, rfl, rfl, hwf⟩
  | cons i rows ih =>
    intro bs mx jj hwf hidx
    rw [List.foldl_cons]
    set k := topk.BucketIndex H item i width with hkdef
    have hk : k < bs.length := hidx i (List.mem_cons_self i rows)
    have hbeq : bs.getD k sliding.zeroBucket = bs[k] := getD_eq_getElem_of_lt hk
    have hbmem : bs.getD k sliding.zeroBucket ∈ bs := by
      rw [hbeq]; exact List.getElem_mem hk
    obtain ⟨hFirst, hEnts, hSum, hLt⟩ := hwf _ hbmem
    set b := bs.getD k sliding.zeroBucket with hbdef
    have hstep : ∃ (b' : sliding.Bucket) (mx' : Nat),
        sliding.addRowStep H rnd item fp 0 width (some (bs, mx, jj)) i
          = some (bs.set k b', mx', jj) ∧
        b'.CountsSum = b.CountsSum ∧ sliding.BucketWF b' := by
      unfold sliding.addRowStep
      dsimp only
      by_cases h0 : b.CountsSum = 0
      · have hget : b.Counts[b.First]? = some (b.Counts[b.First]) :=
          List.getElem?_eq_getElem hFirst
        have hz : (List.replicate b.Counts.length 0).set b.First 0
            = List.replicate b.Counts.length (0 : Nat) := by
          have hgd : (List.replicate b.Counts.length (0 : Nat)).getD b.First 0 = 0 := by
            cases hr : (List.replicate b.Counts.length (0 : Nat))[b.First]? with
            | none => simp [List.getD, List.get?_eq_getElem?, hr]
            | some v =>
              have : v = 0 := by
                have hm := List.getElem?_eq_some_iff.mp hr
                rcases hm with ⟨hlt, hv⟩
                have := List.eq_of_mem_replicate (hv ▸ List.getElem_mem hlt)
                omega
              simp [List.getD, List.get?_eq_getElem?, hr, this]
          calc (List.replicate b.Counts.length 0).set b.First 0
              = (List.replicate b.Counts.length 0).set b.First
                  ((List.replicate b.Counts.length (0 : Nat)).getD b.First 0) := by
                rw [hgd]
            _ = List.replicate b.Counts.length (0 : Nat) :=
                set_getD_self (List.replicate b.Counts.length 0) b.First 0
        refine ⟨⟨fp, (List.replicate b.Counts.length 0).set b.First 0,
          b.First, 0⟩, max mx 0, ?_, ?_, ?_⟩
        · rw [if_pos h0, ← hbdef, hget]
        · simp [h0]
        · refine ⟨?_, ?_, ?_, ?_⟩
          · simpa [hz] using hFirst
          · intro c hc
            rw [hz] at hc
            have := List.eq_of_mem_replicate hc
            subst this
            unfold U32; omega
          · simp [hz]
          · rw [hz]
            simp [List.sum_replicate]
            unfold U32; omega
      · by_cases hfp : b.Fingerprint = fp
        · have hget : b.Counts[b.First]? = some (b.Counts[b.First]) :=
            List.getElem?_eq_getElem hFirst
          have hent : b.Counts[b.First] < U32 :=
            hEnts _ (List.getElem_mem hFirst)
          have hcm : (b.Counts[b.First] + 0) % U32 = b.Counts[b.First] := by
            rw [Nat.add_zero, Nat.mod_eq_of_lt hent]
          have hsm : (b.CountsSum + 0) % U32 = b.CountsSum := by
            rw [Nat.add_zero, hSum, Nat.mod_eq_of_lt hLt, ← hSum]
          have hsets : b.Counts.set b.First ((b.Counts[b.First] + 0) % U32)
              = b.Counts := by
            rw [hcm]
            have h1 : b.Counts[b.First] = b.Counts.getD b.First 0 :=
              (getD_eq_getElem_of_lt hFirst).symm
            rw [h1, set_getD_self]
          refine ⟨⟨b.Fingerprint, b.Counts.set b.First
              ((b.Counts[b.First] + 0) % U32), b.First,
              (b.CountsSum + 0) % U32⟩,
            max mx ((b.CountsSum + 0) % U32), ?_, ?_, ?_⟩
          · rw [if_neg h0, if_pos hfp, ← hbdef, hget]
          · exact hsm
          · rw [hsets, hsm]
            exact ⟨hFirst, hEnts, hSum, hLt⟩
        · refine ⟨⟨b.Fingerprint, b.Counts, b.First, b.CountsSum⟩, mx, ?_, rfl,
            ⟨hFirst, hEnts, hSum, hLt⟩⟩
          rw [if_neg h0, if_neg hfp, ← hbdef]
          rfl
    rcases hstep with ⟨b', mx', hstep, hcnt, hwfb⟩
    rw [hstep]
    have hwf' : ∀ c ∈ bs.set k b', sliding.BucketWF c :=
      forall_mem_set hwf hwfb
    have hlen : (bs.set k b').length = bs.length := by simp
    have hidx' : ∀ r ∈ rows, topk.BucketIndex H item r width
        < (bs.set k b').length := by
      intro r hr
      rw [hlen]
      exact hidx r (List.mem_cons_of_mem i hr)
    rcases ih (bs.set k b') mx' jj hwf' hidx' with ⟨bs', mx'', hfold, hmap, hl, hw⟩
    refine ⟨bs', mx'', hfold, ?_, ?_, hw⟩
    · rw [hmap]
      exact map_set_proj _ _ _ _ _ (by rw [hcnt])
    · rw [hl, hlen]

/-- C5 (amended).  `Add(item, 0)` never changes any bucket count
(plain) or any bucket `CountsSum` (sliding) and consumes no randomness
— but it is not a no-op: it may claim zero-count buckets' fingerprints
(and, in the sliding empty case, re-zero a ring), and it still offers
the computed estimate to the heap, which may change the heap and
return true (see `C5_counterexample`).  The returned boolean is the
heap update's result: true implies the item is in the heap after the
call, not that it was there before. -/
theorem C5_add_zero_behavior :
    (∀ (H : topk.Hasher) (rnd : Nat → Bool) (j : Nat) (item : String)
        (st : topk.Sketch), topk.CountsWF st →
      ((topk.Add H rnd j item 0 st).1.Buckets.map topk.Bucket.Count
          = st.Buckets.map topk.Bucket.Count ∧
        (topk.Add H rnd j item 0 st).2.2 = j ∧
        ((topk.Add H rnd j item 0 st).2.1 = true →
          topk.Query (topk.Add H rnd j item 0 st).1 item = true))) ∧
    (∀ (H : topk.Hasher) (rnd : Nat → Bool) (j : Nat) (item : String)
        (st : sliding.Sketch), sliding.SketchWF st →
      (∀ i ∈ List.range st.Depth,
        topk.BucketIndex H item i st.Width < st.Buckets.length) →
      ∃ st' r j',
        sliding.Add H rnd j item 0 st = some (st', r, j') ∧
        st'.Buckets.map sliding.Bucket.CountsSum
          = st.Buckets.map sliding.Bucket.CountsSum ∧
        j' = j ∧
        (r = true → sliding.Query st' item = true)) := by
  constructor
  · intro H rnd j item st hwf
    obtain ⟨hmap, hj, _⟩ := plain_addZero_fold H rnd item
      (topk.Fingerprint H item) st.Width (List.range st.Depth)
      st.Buckets 0 j hwf
    refine ⟨hmap, hj, ?_⟩
    intro hr
    exact heap.Update_true_contains _ _ _ _ hr
  · intro H rnd j item st hwf hidx
    obtain ⟨bs', mx', hfold, hmap, _, _⟩ := sliding_addZero_fold H rnd item
      (topk.Fingerprint H item) st.Width (List.range st.Depth)
      st.Buckets 0 j hwf hidx
    unfold sliding.Add
    dsimp only
    rw [hfold]
    refine ⟨_, _, _, rfl, hmap, rfl, ?_⟩
    intro hr
    exact heap.Update_true_contains _ _ _ _ hr

/-- Witness for C5 (amended), at a fresh plain sketch and a fresh
sliding sketch (both well-formed by construction). -/
theorem C5_add_zero_behavior_witness :
    ((topk.Add testHasher (fun _ => true) 0 "a" 0
        (topk.New 1 [topk.WithWidth 1, topk.WithDepth 1])).1.Buckets.map
          topk.Bucket.Count
      = (topk.New 1 [topk.WithWidth 1,
          topk.WithDepth 1]).Buckets.map topk.Bucket.Count) ∧
    (∃ st' r j',
      sliding.Add testHasher (fun _ => true) 3 "x" 0
        (sliding.New 1 2 [sliding.WithWidth 1, sliding.WithDepth 1])
        = some (st', r, j') ∧
      st'.Buckets.map sliding.Bucket.CountsSum
        = (sliding.New 1 2 [sliding.WithWidth 1,
            sliding.WithDepth 1]).Buckets.map sliding.Bucket.CountsSum ∧
      j' = 3 ∧
      (r = true → sliding.Query st' "x" = true)) := by
  constructor
  · exact (C5_add_zero_behavior.1 testHasher (fun _ => true) 0 "a"
      (topk.New 1 [topk.WithWidth 1, topk.WithDepth 1]) (by decide)).1
  · exact C5_add_zero_behavior.2 testHasher (fun _ => true) 3 "x"
      (sliding.New 1 2 [sliding.WithWidth 1, sliding.WithDepth 1])
      (by decide) (by decide)

set_option maxRecDepth 8000

/-- C6 (amended).  Construction performs no validation: for every
`k ≥ 0` and `windowSize ≥ 0` it silently returns a sketch, with an
out-of-range decay stored as-is, the capacity stored as-is, an unset
decay LUT defaulted to length 256 and the window size stored as-is —
so invalid configurations inside the parameter domain (Decay ∉ (0,1),
`K = 0`, `WindowSize = 0`) are all accepted, refuting the claim (see
`C6_counterexample`).  Negative parameters do abort construction, but
by a runtime panic from `make` rather than by any validation: `k < 0`
panics in `heap.NewMin`, and `windowSize < 0` panics at the ring
allocation after the clamp writes the negative window size into
`BucketHistoryLength`. -/
theorem C6_construction_validation (k n : Int) (q : ℚ) :
    (0 ≤ k → ∃ st, topk.NewGo k [topk.WithDecay q] = some st ∧
      st.Decay = q ∧ st.K = k.toNat ∧ st.DecayLUT.length = 256) ∧
    (k < 0 → topk.NewGo k [topk.WithDecay q] = none) ∧
    (0 ≤ k → 0 ≤ n → ∃ st, sliding.NewGo k n [sliding.WithDecay q]
        = some st ∧
      st.Decay = q ∧ st.K = k.toNat ∧ st.WindowSize = n.toNat) ∧
    (k < 0 → sliding.NewGo k n [sliding.WithDecay q] = none) ∧
    (0 ≤ k → n < 0 → sliding.NewGo k n [sliding.WithDecay q] = none) := by
  refine ⟨?_, ?_, ?_, ?_, ?_⟩
  · intro hk
    unfold topk.NewGo
    rw [if_neg (by omega)]
    refine ⟨topk.New k.toNat [topk.WithDecay q], rfl, rfl, rfl, ?_⟩
    unfold topk.New topk.NewAux topk.initBuckets topk.initDecayLUT
    dsimp only
    simp [topk.WithDecay]
  · intro hk
    unfold topk.NewGo
    rw [if_pos hk]
  · intro hk hn
    unfold sliding.NewGo
    rw [if_neg (by omega), if_neg (by omega)]
    refine ⟨sliding.New k.toNat n.toNat [sliding.WithDecay q], rfl,
      ?_, ?_, ?_⟩
    all_goals
      unfold sliding.New sliding.NewAux sliding.initBuckets
        sliding.initDecayLUT
    all_goals
      dsimp only
    all_goals
      split_ifs <;> first | rfl | simp_all
  · intro hk
    unfold sliding.NewGo
    rw [if_pos hk]
  · intro hk hn
    unfold sliding.NewGo
    rw [if_neg (by omega), if_pos hn]

/-- Witness for C6 (amended): a valid-domain construction with the
out-of-range decay 2 succeeds on both variants, while negative
capacity or window size aborts. -/
theorem C6_construction_validation_witness :
    (∃ st, topk.NewGo 2 [topk.WithDecay 2] = some st ∧
      st.Decay = 2 ∧ st.K = (2 : Int).toNat ∧ st.DecayLUT.length = 256) ∧
    topk.NewGo (-1) [topk.WithDecay 2] = none ∧
    (∃ st, sliding.NewGo 2 3 [sliding.WithDecay 2] = some st ∧
      st.Decay = 2 ∧ st.K = (2 : Int).toNat ∧
      st.WindowSize = (3 : Int).toNat) ∧
    sliding.NewGo (-1) 3 [sliding.WithDecay 2] = none ∧
    sliding.NewGo 2 (-1) [sliding.WithDecay 2] = none :=
  ⟨(C6_construction_validation 2 3 2).1 (by decide),
   (C6_construction_validation (-1) 3 2).2.1 (by decide),
   (C6_construction_validation 2 3 2).2.2.1 (by decide) (by decide),
   (C6_construction_validation (-1) 3 2).2.2.2.1 (by decide),
   (C6_construction_validation 2 (-1) 2).2.2.2.2 (by decide) (by decide)⟩

theorem tickWalk_length (m s : Nat) :
    ∀ (bs : List sliding.Bucket) (t : Nat),
      (sliding.tickWalk m bs t s).1.length = bs.length := by
  induction s with
  | zero => intro bs t; rfl
  | succ s ih =>
    intro bs t
    rw [show (sliding.tickWalk m bs t (s + 1)).1
        = (sliding.tickWalk m (listModify bs t sliding.tick)
            (if t + 1 = m then 0 else t + 1) s).1 from rfl]
    rw [ih, listModify_length]

theorem tickWalk_add (m a : Nat) :
    ∀ (b : Nat) (bs : List sliding.Bucket) (t : Nat),
      sliding.tickWalk m bs t (a + b)
        = sliding.tickWalk m (sliding.tickWalk m bs t a).1
            (sliding.tickWalk m bs t a).2 b := by
  induction a with
  | zero =>
    intro b bs t
    rw [Nat.zero_add]
    rfl
  | succ a ih =>
    intro b bs t
    rw [show a + 1 + b = (a + b) + 1 by omega]
    rw [show sliding.tickWalk m bs t (a + b + 1)
        = sliding.tickWalk m (listModify bs t sliding.tick)
            (if t + 1 = m then 0 else t + 1) (a + b) from rfl]
    rw [ih]
    rfl

theorem tickWalk_seg (m s : Nat) :
    ∀ (bs : List sliding.Bucket) (t : Nat),
      bs.length = m → t + s ≤ m →
      (∀ j : Nat, ((sliding.tickWalk m bs t s).1)[j]? =
        if t ≤ j ∧ j < t + s then (bs[j]?).map sliding.tick else bs[j]?) ∧
      (sliding.tickWalk m bs t s).2
        = if 0 < s ∧ t + s = m then 0 else t + s := by
  induction s with
  | zero =>
    intro bs t hm hts
    refine ⟨?_, ?_⟩
    · intro j
      rw [if_neg (by omega)]
      rfl
    · rw [if_neg (by omega)]
      rfl
  | succ s ih =>
    intro bs t hm hts
    rw [show sliding.tickWalk m bs t (s + 1)
        = sliding.tickWalk m (listModify bs t sliding.tick)
            (if t + 1 = m then 0 else t + 1) s from rfl]
    by_cases hwrap : t + 1 = m
    · have hs0 : s = 0 := by omega
      subst hs0
      rw [if_pos hwrap]
      refine ⟨?_, ?_⟩
      · intro j
        show (listModify bs t sliding.tick)[j]? = _
        rw [listModify_getElem?]
        split_ifs <;> first | rfl | omega
      · show 0 = _
        split_ifs <;> omega
    · have hlen : (listModify bs t sliding.tick).length = m := by
        rw [listModify_length, hm]
      have h1 : (t + 1) + s ≤ m := by omega
      obtain ⟨ihg, ihc⟩ := ih (listModify bs t sliding.tick) (t + 1) hlen h1
      rw [if_neg hwrap]
      refine ⟨?_, ?_⟩
      · intro j
        rw [ihg j, listModify_getElem?]
        split_ifs <;> first | rfl | omega
      · rw [ihc]
        split_ifs <;> omega

theorem tickWalk_full (m : Nat) (bs : List sliding.Bucket) (t : Nat)
    (hm : bs.length = m) (ht : t < m) :
    (∀ j : Nat, ((sliding.tickWalk m bs t m).1)[j]? = (bs[j]?).map sliding.tick) ∧
    (sliding.tickWalk m bs t m).2 = t := by
  obtain ⟨g1, c1⟩ := tickWalk_seg m (m - t) bs t hm (by omega)
  have hc1 : (sliding.tickWalk m bs t (m - t)).2 = 0 := by
    rw [c1, if_pos (by omega)]
  have hlen1 : (sliding.tickWalk m bs t (m - t)).1.length = m := by
    rw [tickWalk_length, hm]
  obtain ⟨g2, c2⟩ := tickWalk_seg m t (sliding.tickWalk m bs t (m - t)).1 0
      hlen1 (by omega)
  have hstep : sliding.tickWalk m bs t m
      = sliding.tickWalk m (sliding.tickWalk m bs t (m - t)).1 0 t := by
    have h := tickWalk_add m (m - t) t bs t
    rw [show m - t + t = m by omega] at h
    rw [h, hc1]
  refine ⟨?_, ?_⟩
  · intro j
    rw [hstep, g2 j]
    by_cases hjt : j < t
    · rw [if_pos (by omega), g1 j, if_neg (by omega)]
    · rw [if_neg (by omega), g1 j]
      by_cases hjm : j < m
      · rw [if_pos (by omega)]
      · rw [if_neg (by omega)]
        have hnone : bs[j]? = none := List.getElem?_eq_none (by omega)
        rw [hnone]
        rfl
  · rw [hstep, c2, if_neg (by omega)]
    omega

theorem tickWalk_cycles (m a : Nat) :
    ∀ (bs : List sliding.Bucket) (t : Nat), bs.length = m → t < m →
      (∀ j : Nat, ((sliding.tickWalk m bs t (a * m)).1)[j]?
          = (bs[j]?).map (sliding.tick^[a])) ∧
      (sliding.tickWalk m bs t (a * m)).2 = t := by
  induction a with
  | zero =>
    intro bs t hm ht
    rw [Nat.zero_mul]
    exact ⟨fun j => by simp [sliding.tickWalk], rfl⟩
  | succ a ih =>
    intro bs t hm ht
    have hsm : (a + 1) * m = m + a * m := by ring
    rw [hsm, tickWalk_add]
    obtain ⟨fg, fc⟩ := tickWalk_full m bs t hm ht
    have hlen : (sliding.tickWalk m bs t m).1.length = m := by
      rw [tickWalk_length, hm]
    rw [fc]
    obtain ⟨ig, ic⟩ := ih (sliding.tickWalk m bs t m).1 t hlen ht
    refine ⟨?_, ic⟩
    intro j
    rw [ig j, fg j, Option.map_map, ← Function.iterate_succ]

/-- C2: amended.  A single `Ticks(WindowSize)` call on a sliding sketch
(with `WindowSize ≥ 1`, a nonempty bucket array, `BucketHistoryLength ≥ 1`
and an in-range aging cursor) ages `bucketsToAge = d·m` buckets — a whole
number `d = BucketHistoryLength` of passes over all `m` buckets — so it
returns the cursor to its starting position and applies `tick` exactly
`d` times to every bucket.  (The original claim, that a sequence of
`Ticks(nᵢ)` calls with `Σ nᵢ = WindowSize` always does the same, is
refuted by `C2_counterexample`: each call floors `nᵢ·d·m/WindowSize`
separately, with no remainder carried.) -/
theorem C2_ticks_full_window (H : topk.Hasher) (st : sliding.Sketch)
    (hN : 0 < st.WindowSize) (hd : 0 < st.BucketHistoryLength)
    (hm : 0 < st.Buckets.length)
    (hcur : st.NextBucketToExpireIndex < st.Buckets.length) :
    sliding.bucketsToAge st.WindowSize st
        = st.BucketHistoryLength * st.Buckets.length ∧
    (sliding.Ticks H st.WindowSize st).NextBucketToExpireIndex
        = st.NextBucketToExpireIndex ∧
    (sliding.Ticks H st.WindowSize st).Buckets
        = st.Buckets.map (sliding.tick^[st.BucketHistoryLength]) := by
  have hage : sliding.bucketsToAge st.WindowSize st
      = st.BucketHistoryLength * st.Buckets.length := by
    unfold sliding.bucketsToAge
    rw [Nat.mul_assoc, Nat.mul_div_cancel_left _ hN]
    exact Nat.max_eq_right (Nat.mul_pos hd hm)
  have hNne : ¬ st.WindowSize = 0 := by omega
  have hT : sliding.Ticks H st.WindowSize st
      = sliding.recountHeapItems H
          { st with
            Buckets := (sliding.tickWalk st.Buckets.length st.Buckets
              st.NextBucketToExpireIndex
              (st.BucketHistoryLength * st.Buckets.length)).1,
            NextBucketToExpireIndex := (sliding.tickWalk st.Buckets.length
              st.Buckets st.NextBucketToExpireIndex
              (st.BucketHistoryLength * st.Buckets.length)).2 } := by
    unfold sliding.Ticks
    rw [if_neg hNne, hage]
  obtain ⟨wg, wc⟩ := tickWalk_cycles st.Buckets.length st.BucketHistoryLength
      st.Buckets st.NextBucketToExpireIndex rfl hcur
  refine ⟨hage, ?_, ?_⟩
  · rw [hT]
    exact wc
  · rw [hT]
    refine List.ext_getElem? ?_
    intro j
    rw [List.getElem?_map]
    exact wg j

theorem C2_ticks_full_window_witness :
    0 < (sliding.NewAux 0 0 1 1
          [sliding.WithWidth 2, sliding.WithDepth 1]).WindowSize ∧
    0 < (sliding.NewAux 0 0 1 1
          [sliding.WithWidth 2, sliding.WithDepth 1]).BucketHistoryLength ∧
    0 < (sliding.NewAux 0 0 1 1
          [sliding.WithWidth 2, sliding.WithDepth 1]).Buckets.length ∧
    (sliding.NewAux 0 0 1 1
        [sliding.WithWidth 2, sliding.WithDepth 1]).NextBucketToExpireIndex
      < (sliding.NewAux 0 0 1 1
          [sliding.WithWidth 2, sliding.WithDepth 1]).Buckets.length ∧
    (sliding.bucketsToAge
        (sliding.NewAux 0 0 1 1
          [sliding.WithWidth 2, sliding.WithDepth 1]).WindowSize
        (sliding.NewAux 0 0 1 1 [sliding.WithWidth 2, sliding.WithDepth 1])
      = (sliding.NewAux 0 0 1 1
          [sliding.WithWidth 2, sliding.WithDepth 1]).BucketHistoryLength
        * (sliding.NewAux 0 0 1 1
            [sliding.WithWidth 2, sliding.WithDepth 1]).Buckets.length ∧
     (sliding.Ticks testHasher
        (sliding.NewAux 0 0 1 1
          [sliding.WithWidth 2, sliding.WithDepth 1]).WindowSize
        (sliding.NewAux 0 0 1 1
          [sliding.WithWidth 2, sliding.WithDepth 1])).NextBucketToExpireIndex
      = (sliding.NewAux 0 0 1 1
          [sliding.WithWidth 2, sliding.WithDepth 1]).NextBucketToExpireIndex ∧
     (sliding.Ticks testHasher
        (sliding.NewAux 0 0 1 1
          [sliding.WithWidth 2, sliding.WithDepth 1]).WindowSize
        (sliding.NewAux 0 0 1 1
          [sliding.WithWidth 2, sliding.WithDepth 1])).Buckets
      = (sliding.NewAux 0 0 1 1
          [sliding.WithWidth 2, sliding.WithDepth 1]).Buckets.map
          (sliding.tick^[(sliding.NewAux 0 0 1 1
            [sliding.WithWidth 2, sliding.WithDepth 1]).BucketHistoryLength])) :=
  ⟨by decide, by decide, by decide, by decide,
   C2_ticks_full_window testHasher
     (sliding.NewAux 0 0 1 1 [sliding.WithWidth 2, sliding.WithDepth 1])
     (by decide) (by decide) (by decide) (by decide)⟩

theorem sum_set_add (l : List Nat) :
    ∀ (i : Nat) (hi : i < l.length) (x : Nat),
      (l.set i x).sum + l[i] = l.sum + x := by
  induction l with
  | nil => intro i hi x; simp at hi
  | cons a t ih =>
    intro i hi x
    cases i with
    | zero =>
      simp only [List.set_cons_zero, List.sum_cons, List.getElem_cons_zero]
      omega
    | succ i =>
      simp only [List.set_cons_succ, List.sum_cons, List.getElem_cons_succ]
      have := ih i (by simpa using hi) x
      omega

theorem elem_le_sum (l : List Nat) (i : Nat) (h : i < l.length) : l[i] ≤ l.sum :=
  List.single_le_sum (fun x _ => Nat.zero_le x) _ (List.getElem_mem h)

theorem getD_set_ne (l : List α) (i j : Nat) (a d : α) (h : i ≠ j) :
    (l.set i a).getD j d = l.getD j d := by
  simp [List.getD, List.get?_eq_getElem?, List.getElem?_set_ne h]

theorem scanNZMin_some_ne_none (counts : List Nat) :
    ∀ (steps i : Nat) (p : Nat × Nat),
      sliding.scanNZMin counts i steps (some p) ≠ none := by
  intro steps
  induction steps with
  | zero => intro i p h; exact Option.noConfusion h
  | succ s ih =>
    intro i p
    unfold sliding.scanNZMin
    dsimp only
    split_ifs <;> exact ih _ _

theorem scanNZMin_spec (counts : List Nat) :
    ∀ (steps : Nat) (i : Nat) (best : Option (Nat × Nat)),
      0 < counts.length → i ≤ counts.length →
      (∀ p, best = some p →
        p.1 < counts.length ∧ counts.getD p.1 0 = p.2 ∧ p.2 ≠ 0) →
      ∀ q, sliding.scanNZMin counts i steps best = some q →
        q.1 < counts.length ∧ counts.getD q.1 0 = q.2 ∧ q.2 ≠ 0 := by
  intro steps
  induction steps with
  | zero =>
    intro i best hlen hi hbest q hq
    exact hbest q hq
  | succ s ih =>
    intro i best hlen hi hbest q hq
    unfold sliding.scanNZMin at hq
    dsimp only at hq
    have hi2 : (if i = counts.length then 0 else i) < counts.length := by
      split_ifs with h
      · exact hlen
      · omega
    revert hq
    cases best with
    | none =>
      dsimp only
      intro hq
      by_cases hc : counts.getD (if i = counts.length then 0 else i) 0 = 0
      · rw [if_pos hc] at hq
        exact ih _ none hlen (by omega) (fun p hp => Option.noConfusion hp) q hq
      · rw [if_neg hc] at hq
        refine ih _ _ hlen (by omega) ?_ q hq
        intro p hp
        injection hp with hp
        subst hp
        exact ⟨hi2, rfl, hc⟩
    | some bi =>
      dsimp only
      intro hq
      by_cases hc : counts.getD (if i = counts.length then 0 else i) 0 = 0
      · rw [if_pos hc] at hq
        exact ih _ _ hlen (by omega) hbest q hq
      · rw [if_neg hc] at hq
        by_cases hlt : counts.getD (if i = counts.length then 0 else i) 0 < bi.2
        · rw [if_pos hlt] at hq
          refine ih _ _ hlen (by omega) ?_ q hq
          intro p hp
          injection hp with hp
          subst hp
          exact ⟨hi2, rfl, hc⟩
        · rw [if_neg hlt] at hq
          exact ih _ _ hlen (by omega) hbest q hq

theorem scanNZMin_none (counts : List Nat) :
    ∀ (steps : Nat) (i : Nat) (best : Option (Nat × Nat)),
      0 < counts.length → i ≤ counts.length →
      sliding.scanNZMin counts i steps best = none →
      best = none ∧
      ∀ t, t < steps → counts.getD ((i + t) % counts.length) 0 = 0 := by
  intro steps
  induction steps with
  | zero =>
    intro i best hlen hi h
    exact ⟨h, fun t ht => absurd ht (by omega)⟩
  | succ s ih =>
    intro i best hlen hi h
    unfold sliding.scanNZMin at h
    dsimp only at h
    have hmod : (if i = counts.length then 0 else i) = i % counts.length := by
      split_ifs with he
      · rw [he, Nat.mod_self]
      · rw [Nat.mod_eq_of_lt (by omega)]
    have hi2 : (if i = counts.length then 0 else i) < counts.length := by
      split_ifs with he
      · exact hlen
      · omega
    by_cases hc : counts.getD (if i = counts.length then 0 else i) 0 = 0
    · rw [if_pos hc] at h
      have hstep := ih ((if i = counts.length then 0 else i) + 1) best hlen
        (by omega) h
      refine ⟨hstep.1, ?_⟩
      intro t ht
      cases t with
      | zero =>
        rw [Nat.add_zero, ← hmod]
        exact hc
      | succ t =>
        have h2 := hstep.2 t (by omega)
        rw [hmod] at h2
        rw [show i % counts.length + 1 + t = i % counts.length + (1 + t)
          by omega] at h2
        rw [Nat.mod_add_mod] at h2
        rw [show i + (1 + t) = i + (t + 1) by omega] at h2
        exact h2
    · exfalso
      rw [if_neg hc] at h
      revert h
      cases best with
      | none =>
        dsimp only
        exact fun h => scanNZMin_some_ne_none counts s _ _ h
      | some bi =>
        dsimp only
        intro h
        by_cases hlt : counts.getD (if i = counts.length then 0 else i) 0 < bi.2
        · rw [if_pos hlt] at h
          exact scanNZMin_some_ne_none counts s _ _ h
        · rw [if_neg hlt] at h
          exact scanNZMin_some_ne_none counts s _ _ h

theorem findNZ_nonzero (counts : List Nat) (first : Nat)
    (hlen : 0 < counts.length) (hfirst : first ≤ counts.length)
    (hsum : counts.sum ≠ 0) :
    sliding.findNonzeroMinimumCount counts first < counts.length ∧
    counts.getD (sliding.findNonzeroMinimumCount counts first) 0 ≠ 0 := by
  unfold sliding.findNonzeroMinimumCount
  cases hscan : sliding.scanNZMin counts first counts.length none with
  | none =>
    exfalso
    obtain ⟨-, hall⟩ := scanNZMin_none counts counts.length first none hlen
      hfirst hscan
    apply hsum
    apply List.sum_eq_zero
    intro x hx
    obtain ⟨j, hj, hxe⟩ := List.mem_iff_getElem.mp hx
    have key := hall ((counts.length + j - first % counts.length)
        % counts.length) (Nat.mod_lt _ hlen)
    rw [Nat.add_mod_mod] at key
    by_cases hfl : first = counts.length
    · rw [hfl, Nat.mod_self, Nat.sub_zero, Nat.add_mod_left,
        Nat.add_mod_left, Nat.mod_eq_of_lt hj] at key
      rw [← hxe, ← getD_eq_getElem_of_lt hj]
      exact key
    · have hf : first % counts.length = first := Nat.mod_eq_of_lt (by omega)
      rw [hf,
        show first + (counts.length + j - first) = counts.length + j
          by omega,
        Nat.add_mod_left, Nat.mod_eq_of_lt hj] at key
      rw [← hxe, ← getD_eq_getElem_of_lt hj]
      exact key
  | some bi =>
    dsimp only
    obtain ⟨h1, h2, h3⟩ := scanNZMin_spec counts counts.length first none hlen
      hfirst (fun p hp => Option.noConfusion hp) bi hscan
    exact ⟨h1, by rw [h2]; exact h3⟩

theorem decayLoopS_wf (rnd : Nat → Bool) :
    ∀ (rem j : Nat) (counts : List Nat) (first count : Nat),
      first < counts.length →
      (∀ c ∈ counts, c < U32) →
      count = counts.sum → 0 < count → counts.sum < U32 → rem < U32 →
      ∃ cs c2 claimed j2,
        sliding.decayLoopS rnd j counts first count rem
          = some (cs, c2, claimed, j2) ∧
        cs.length = counts.length ∧ (∀ e ∈ cs, e < U32) ∧
        c2 = cs.sum ∧ cs.sum < U32 := by
  intro rem
  induction rem with
  | zero =>
    intro j counts first count hfirst hents hcnt hpos hsum hrem
    exact ⟨counts, count, false, j, rfl, rfl, hents, hcnt, hsum⟩
  | succ r ih =>
    intro j counts first count hfirst hents hcnt hpos hsum hrem
    by_cases hrnd : rnd j = true
    · have hlen : 0 < counts.length := by omega
      obtain ⟨hidx, hnzv⟩ := findNZ_nonzero counts first hlen (by omega)
        (by omega)
      set idx := sliding.findNonzeroMinimumCount counts first with hidxdef
      have hgetq : counts[idx]? = some counts[idx] :=
        List.getElem?_eq_getElem hidx
      have he0 : counts[idx] ≠ 0 := by
        rw [← getD_eq_getElem_of_lt hidx]
        exact hnzv
      have heU : counts[idx] < U32 := hents _ (List.getElem_mem hidx)
      have hsub : sub32 counts[idx] 1 = counts[idx] - 1 := by
        unfold sub32 U32
        unfold U32 at heU
        omega
      have hele : counts[idx] ≤ counts.sum := elem_le_sum _ _ hidx
      have hset := sum_set_add counts idx hidx (counts[idx] - 1)
      have hsum2 : (counts.set idx (counts[idx] - 1)).sum + 1 = counts.sum := by
        omega
      by_cases hcz : count - 1 = 0
      · -- the claim path: the ring is exhausted, slot 0 takes the rest
        have hlen2 : 0 < (counts.set idx (counts[idx] - 1)).length := by
          rw [List.length_set]
          omega
        have hget0 : (counts.set idx (counts[idx] - 1))[0]?
            = some ((counts.set idx (counts[idx] - 1))[0]) :=
          List.getElem?_eq_getElem hlen2
        have hz : (counts.set idx (counts[idx] - 1)).sum = 0 := by omega
        have hel0 : (counts.set idx (counts[idx] - 1))[0]
            ≤ (counts.set idx (counts[idx] - 1)).sum :=
          elem_le_sum _ _ hlen2
        have hset0 := sum_set_add (counts.set idx (counts[idx] - 1)) 0
          hlen2 (r + 1)
        refine ⟨(counts.set idx (counts[idx] - 1)).set 0 (r + 1), r + 1,
          true, j + 1, ?_, ?_, ?_, ?_, ?_⟩
        · unfold sliding.decayLoopS
          dsimp only
          rw [if_pos hrnd, ← hidxdef, hgetq]
          dsimp only
          rw [hsub, if_pos hcz, hget0]
        · rw [List.length_set, List.length_set]
        · refine forall_mem_set (forall_mem_set hents ?_) ?_
          · omega
          · omega
        · omega
        · omega
      · -- keep decaying: the invariant recurses
        obtain ⟨cs, c2, cl, j2, heq, hl, he, hc, hs⟩ := ih (j + 1)
          (counts.set idx (counts[idx] - 1)) first (count - 1)
          (by rw [List.length_set]; exact hfirst)
          (forall_mem_set hents (by omega))
          (by omega) (by omega) (by omega) (by omega)
        refine ⟨cs, c2, cl, j2, ?_, ?_, he, hc, hs⟩
        · unfold sliding.decayLoopS
          dsimp only
          rw [if_pos hrnd, ← hidxdef, hgetq]
          dsimp only
          rw [hsub, if_neg hcz]
          exact heq
        · rw [hl, List.length_set]
    · obtain ⟨cs, c2, cl, j2, heq, hl, he, hc, hs⟩ := ih (j + 1) counts first
        count hfirst hents hcnt hpos hsum (by omega)
      refine ⟨cs, c2, cl, j2, ?_, hl, he, hc, hs⟩
      unfold sliding.decayLoopS
      dsimp only
      rw [if_neg hrnd]
      exact heq

theorem sliding_addRowStep_wf (H : topk.Hasher) (rnd : Nat → Bool)
    (item : String) (fp inc width : Nat) (bs : List sliding.Bucket)
    (mx jj i : Nat)
    (hk : topk.BucketIndex H item i width < bs.length)
    (hwfb : sliding.BucketWF (bs.getD (topk.BucketIndex H item i width)
      sliding.zeroBucket))
    (hsum : (bs.getD (topk.BucketIndex H item i width)
      sliding.zeroBucket).Counts.sum + inc < U32) :
    ∃ b2 mx2 jj2,
      sliding.addRowStep H rnd item fp inc width (some (bs, mx, jj)) i
        = some (bs.set (topk.BucketIndex H item i width) b2, mx2, jj2) ∧
      sliding.BucketWF b2 := by
  obtain ⟨hFirst, hEnts, hSum, hLt⟩ := hwfb
  set k := topk.BucketIndex H item i width with hk0
  set b := bs.getD k sliding.zeroBucket with hb0
  have hincU : inc < U32 := by omega
  by_cases h0 : b.CountsSum = 0
  · have hget : b.Counts[b.First]? = some (b.Counts[b.First]) :=
      List.getElem?_eq_getElem hFirst
    have hrepl : b.First < (List.replicate b.Counts.length (0 : Nat)).length := by
      rw [List.length_replicate]
      exact hFirst
    have hsets := sum_set_add (List.replicate b.Counts.length (0 : Nat))
      b.First hrepl inc
    have hreplget : (List.replicate b.Counts.length (0 : Nat))[b.First] = 0 := by
      simp
    have hreplsum : (List.replicate b.Counts.length (0 : Nat)).sum = 0 := by
      simp [List.sum_replicate]
    refine ⟨⟨fp, (List.replicate b.Counts.length 0).set b.First inc,
      b.First, inc⟩, max mx inc, jj, ?_, ?_, ?_, ?_, ?_⟩
    · unfold sliding.addRowStep
      dsimp only
      rw [if_pos h0, ← hb0, hget]
    · rw [List.length_set, List.length_replicate]
      exact hFirst
    · refine forall_mem_set ?_ hincU
      intro c hc
      have := List.eq_of_mem_replicate hc
      omega
    · dsimp only
      omega
    · dsimp only
      omega
  · by_cases hfp : b.Fingerprint = fp
    · have hget : b.Counts[b.First]? = some (b.Counts[b.First]) :=
        List.getElem?_eq_getElem hFirst
      have hele : b.Counts[b.First] ≤ b.Counts.sum := elem_le_sum _ _ hFirst
      have hcm : (b.Counts[b.First] + inc) % U32 = b.Counts[b.First] + inc :=
        Nat.mod_eq_of_lt (by omega)
      have hsm : (b.CountsSum + inc) % U32 = b.CountsSum + inc :=
        Nat.mod_eq_of_lt (by omega)
      have hsets := sum_set_add b.Counts b.First hFirst
        ((b.Counts[b.First] + inc) % U32)
      refine ⟨⟨b.Fingerprint,
        b.Counts.set b.First ((b.Counts[b.First] + inc) % U32), b.First,
        (b.CountsSum + inc) % U32⟩,
        max mx ((b.CountsSum + inc) % U32), jj, ?_, ?_, ?_, ?_, ?_⟩
      · unfold sliding.addRowStep
        dsimp only
        rw [if_neg h0, if_pos hfp, ← hb0, hget]
      · rw [List.length_set]
        exact hFirst
      · exact forall_mem_set hEnts (by omega)
      · dsimp only
        omega
      · dsimp only
        omega
    · obtain ⟨cs, c2, cl, j2, heq, hl, he, hc, hs⟩ := decayLoopS_wf rnd inc jj
        b.Counts b.First b.CountsSum hFirst hEnts hSum (by omega) hLt hincU
      refine ⟨⟨if cl then fp else b.Fingerprint, cs, b.First, c2⟩,
        if cl then max mx c2 else mx, j2, ?_, ?_, he, hc, hs⟩
      · unfold sliding.addRowStep
        dsimp only
        rw [if_neg h0, if_neg hfp, ← hb0, heq]
      · rw [hl]
        exact hFirst

theorem bucketIndex_pairwise (H : topk.Hasher) (item : String) (width d : Nat)
    (hw : 0 < width) :
    List.Pairwise (fun a b => topk.BucketIndex H item a width
      ≠ topk.BucketIndex H item b width) (List.range d) := by
  refine (List.pairwise_lt_range d).imp ?_
  intro a b hab
  unfold topk.BucketIndex
  have ha : H.row item a % width < width := Nat.mod_lt _ hw
  have hb2 : H.row item b % width < width := Nat.mod_lt _ hw
  have hmul : a * width + width ≤ b * width := by
    have h := Nat.mul_le_mul_right width (show a + 1 ≤ b by omega)
    rw [Nat.succ_mul] at h
    exact h
  omega

theorem sliding_add_fold_wf (H : topk.Hasher) (rnd : Nat → Bool)
    (item : String) (fp inc width : Nat) :
    ∀ (rows : List Nat) (bs : List sliding.Bucket) (mx jj : Nat),
      (∀ b ∈ bs, sliding.BucketWF b) →
      (∀ i ∈ rows, topk.BucketIndex H item i width < bs.length) →
      (∀ i ∈ rows, (bs.getD (topk.BucketIndex H item i width)
          sliding.zeroBucket).Counts.sum + inc < U32) →
      List.Pairwise (fun a b => topk.BucketIndex H item a width
          ≠ topk.BucketIndex H item b width) rows →
      ∃ bs2 mx2 jj2,
        rows.foldl (sliding.addRowStep H rnd item fp inc width)
            (some (bs, mx, jj)) = some (bs2, mx2, jj2) ∧
        (∀ b ∈ bs2, sliding.BucketWF b) ∧ bs2.length = bs.length := by
  intro rows
  induction rows with
  | nil =>
    intro bs mx jj hwf _ _ _
    exact ⟨bs, mx, jj, rfl, hwf, rfl⟩
  | cons i rows ih =>
    intro bs mx jj hwf hidx hsums hpw
    rw [List.foldl_cons]
    have hk : topk.BucketIndex H item i width < bs.length :=
      hidx i (List.mem_cons_self i rows)
    have hbmem : bs.getD (topk.BucketIndex H item i width)
        sliding.zeroBucket ∈ bs := by
      rw [getD_eq_getElem_of_lt hk]
      exact List.getElem_mem hk
    obtain ⟨hhead, htail⟩ := List.pairwise_cons.mp hpw
    obtain ⟨b2, mx2, jj2, hstep, hwfb2⟩ := sliding_addRowStep_wf H rnd item
      fp inc width bs mx jj i hk (hwf _ hbmem)
      (hsums i (List.mem_cons_self i rows))
    rw [hstep]
    have hwf2 : ∀ b ∈ bs.set (topk.BucketIndex H item i width) b2,
        sliding.BucketWF b :=
      forall_mem_set hwf hwfb2
    have hlen2 : (bs.set (topk.BucketIndex H item i width) b2).length
        = bs.length := List.length_set bs _ _
    obtain ⟨bs3, mx3, jj3, hfold, hwf3, hlen3⟩ := ih
      (bs.set (topk.BucketIndex H item i width) b2) mx2 jj2 hwf2
      (by
        intro r hr
        rw [hlen2]
        exact hidx r (List.mem_cons_of_mem i hr))
      (by
        intro r hr
        rw [getD_set_ne _ _ _ _ _ (hhead r hr)]
        exact hsums r (List.mem_cons_of_mem i hr))
      htail
    exact ⟨bs3, mx3, jj3, hfold, hwf3, by rw [hlen3, hlen2]⟩

theorem tick_wf (b : sliding.Bucket) (h : sliding.BucketWF b) :
    sliding.BucketWF (sliding.tick b) := by
  obtain ⟨hFirst, hEnts, hSum, hLt⟩ := h
  unfold sliding.tick
  by_cases h0 : b.CountsSum = 0
  · rw [if_pos h0]
    exact ⟨hFirst, hEnts, hSum, hLt⟩
  · rw [if_neg h0]
    dsimp only
    set last := if b.First = 0 then b.Counts.length - 1 else b.First - 1
      with hlast
    have hlastlt : last < b.Counts.length := by
      rw [hlast]
      split_ifs <;> omega
    have hv : b.Counts.getD last 0 = b.Counts[last] :=
      getD_eq_getElem_of_lt hlastlt
    have hvle : b.Counts[last] ≤ b.Counts.sum := elem_le_sum _ _ hlastlt
    have hsub : sub32 b.CountsSum (b.Counts.getD last 0)
        = b.Counts.sum - b.Counts[last] := by
      rw [hv, hSum]
      unfold sub32 U32
      unfold U32 at hLt
      omega
    have hsets := sum_set_add b.Counts last hlastlt 0
    refine ⟨?_, ?_, ?_, ?_⟩
    · show last < (b.Counts.set last 0).length
      rw [List.length_set]
      exact hlastlt
    · show ∀ c ∈ b.Counts.set last 0, c < U32
      refine forall_mem_set hEnts ?_
      unfold U32
      omega
    · show sub32 b.CountsSum (b.Counts.getD last 0) = (b.Counts.set last 0).sum
      rw [hsub]
      omega
    · show (b.Counts.set last 0).sum < U32
      omega

theorem forall_mem_listModify {P : α → Prop} (l : List α) (i : Nat) (f : α → α)
    (h : ∀ b ∈ l, P b) (hf : ∀ b, P b → P (f b)) :
    ∀ b ∈ listModify l i f, P b := by
  unfold listModify
  split
  · next hlt => exact forall_mem_set h (hf _ (h _ (List.getElem_mem hlt)))
  · exact h

theorem tickWalk_wf (m : Nat) :
    ∀ (s : Nat) (bs : List sliding.Bucket) (t : Nat),
      (∀ b ∈ bs, sliding.BucketWF b) →
      ∀ b ∈ (sliding.tickWalk m bs t s).1, sliding.BucketWF b := by
  intro s
  induction s with
  | zero => intro bs t h; exact h
  | succ s ih =>
    intro bs t h
    rw [show sliding.tickWalk m bs t (s + 1) = sliding.tickWalk m
        (listModify bs t sliding.tick) (if t + 1 = m then 0 else t + 1) s
        from rfl]
    exact ih _ _ (forall_mem_listModify _ _ _ h (fun b hb => tick_wf b hb))

/-- C8 (amended).  The per-bucket sum invariant — `CountsSum` equals the
exact sum of the ring entries (hence also its value mod 2^32, the sum
staying below 2^32) — is preserved by every state-changing operation,
with an overflow proviso for `Add`: if every bucket's exact ring sum
plus the increment stays below 2^32 (and bucket indices are in range,
the width positive so that distinct rows hit distinct buckets), `Add`
returns without panic and preserves the invariant; `Incr` is `Add` with
increment 1; `Ticks` and `Tick` preserve it unconditionally; `Reset`
re-establishes the mod-2^32 sum equation vacuously on its emptied rings
(the rings are nil afterwards — the C4 bug).  Without the overflow
proviso even the mod-2^32 reading breaks: see `C8_counterexample`. -/
theorem C8_sum_invariant_preserved :
    (∀ (H : topk.Hasher) (rnd : Nat → Bool) (j : Nat) (item : String)
        (inc : Nat) (st : sliding.Sketch),
      sliding.SketchWF st → 0 < st.Width →
      (∀ i ∈ List.range st.Depth,
        topk.BucketIndex H item i st.Width < st.Buckets.length) →
      (∀ b ∈ st.Buckets, b.Counts.sum + inc < U32) →
      ∃ st2 r j2,
        sliding.Add H rnd j item inc st = some (st2, r, j2) ∧
        sliding.SketchWF st2) ∧
    (∀ (H : topk.Hasher) (rnd : Nat → Bool) (j : Nat) (item : String)
        (st : sliding.Sketch),
      sliding.SketchWF st → 0 < st.Width →
      (∀ i ∈ List.range st.Depth,
        topk.BucketIndex H item i st.Width < st.Buckets.length) →
      (∀ b ∈ st.Buckets, b.Counts.sum + 1 < U32) →
      ∃ st2 r j2,
        sliding.Incr H rnd j item st = some (st2, r, j2) ∧
        sliding.SketchWF st2) ∧
    (∀ (H : topk.Hasher) (n : Nat) (st : sliding.Sketch),
      sliding.SketchWF st → sliding.SketchWF (sliding.Ticks H n st)) ∧
    (∀ (H : topk.Hasher) (st : sliding.Sketch),
      sliding.SketchWF st → sliding.SketchWF (sliding.Tick H st)) ∧
    (∀ st : sliding.Sketch, sliding.SumInvMod (sliding.Reset st)) := by
  have hAdd : ∀ (H : topk.Hasher) (rnd : Nat → Bool) (j : Nat) (item : String)
      (inc : Nat) (st : sliding.Sketch),
      sliding.SketchWF st → 0 < st.Width →
      (∀ i ∈ List.range st.Depth,
        topk.BucketIndex H item i st.Width < st.Buckets.length) →
      (∀ b ∈ st.Buckets, b.Counts.sum + inc < U32) →
      ∃ st2 r j2, sliding.Add H rnd j item inc st = some (st2, r, j2) ∧
        sliding.SketchWF st2 := by
    intro H rnd j item inc st hwf hw hidx hsum
    obtain ⟨bs2, mx2, jj2, hfold, hwf2, hlen2⟩ := sliding_add_fold_wf H rnd
      item (topk.Fingerprint H item) inc st.Width (List.range st.Depth)
      st.Buckets 0 j hwf hidx
      (by
        intro i hi
        refine hsum _ ?_
        rw [getD_eq_getElem_of_lt (hidx i hi)]
        exact List.getElem_mem (hidx i hi))
      (bucketIndex_pairwise H item st.Width st.Depth hw)
    unfold sliding.Add
    dsimp only
    rw [hfold]
    refine ⟨_, _, _, rfl, ?_⟩
    intro b hb
    exact hwf2 b hb
  refine ⟨hAdd, ?_, ?_, ?_, ?_⟩
  · intro H rnd j item st hwf hw hidx hsum
    exact hAdd H rnd j item 1 st hwf hw hidx hsum
  · intro H n st h
    unfold sliding.Ticks
    split_ifs with hn
    · exact h
    · intro b hb
      exact tickWalk_wf st.Buckets.length (sliding.bucketsToAge n st)
        st.Buckets st.NextBucketToExpireIndex h b hb
  · intro H st h
    unfold sliding.Tick sliding.Ticks
    rw [if_neg (by decide : ¬(1 = 0))]
    intro b hb
    exact tickWalk_wf st.Buckets.length (sliding.bucketsToAge 1 st)
      st.Buckets st.NextBucketToExpireIndex h b hb
  · intro st b hb
    have hz := List.eq_of_mem_replicate hb
    subst hz
    exact (Nat.zero_mod _).symm

theorem C8_sum_invariant_preserved_witness :
    sliding.SketchWF (sliding.NewAux 0 0 1 2
        [sliding.WithWidth 2, sliding.WithDepth 1]) ∧
    0 < (sliding.NewAux 0 0 1 2
        [sliding.WithWidth 2, sliding.WithDepth 1]).Width ∧
    (∀ i ∈ List.range (sliding.NewAux 0 0 1 2
        [sliding.WithWidth 2, sliding.WithDepth 1]).Depth,
      topk.BucketIndex testHasher "a" i (sliding.NewAux 0 0 1 2
          [sliding.WithWidth 2, sliding.WithDepth 1]).Width
        < (sliding.NewAux 0 0 1 2
            [sliding.WithWidth 2, sliding.WithDepth 1]).Buckets.length) ∧
    (∀ b ∈ (sliding.NewAux 0 0 1 2
        [sliding.WithWidth 2, sliding.WithDepth 1]).Buckets,
      b.Counts.sum + 5 < U32) ∧
    (∃ st2 r j2,
      sliding.Add testHasher (fun _ => true) 0 "a" 5
          (sliding.NewAux 0 0 1 2 [sliding.WithWidth 2, sliding.WithDepth 1])
        = some (st2, r, j2) ∧
      sliding.SketchWF st2) ∧
    sliding.SketchWF (sliding.Ticks testHasher 1
      (sliding.NewAux 0 0 1 2 [sliding.WithWidth 2, sliding.WithDepth 1])) ∧
    sliding.SumInvMod (sliding.Reset
      (sliding.NewAux 0 0 1 2 [sliding.WithWidth 2, sliding.WithDepth 1])) :=
  ⟨by decide, by decide, by decide, by decide,
   C8_sum_invariant_preserved.1 testHasher (fun _ => true) 0 "a" 5
     (sliding.NewAux 0 0 1 2 [sliding.WithWidth 2, sliding.WithDepth 1])
     (by decide) (by decide) (by decide) (by decide),
   C8_sum_invariant_preserved.2.2.1 testHasher 1
     (sliding.NewAux 0 0 1 2 [sliding.WithWidth 2, sliding.WithDepth 1])
     (by decide),
   C8_sum_invariant_preserved.2.2.2.2
     (sliding.NewAux 0 0 1 2 [sliding.WithWidth 2, sliding.WithDepth 1])⟩

theorem log150_gt_5 : (5 : ℝ) < Real.log (150 : ℝ) := by
  have h150 : (0 : ℝ) < (150 : ℝ) := by norm_num
  rw [Real.lt_log_iff_exp_lt h150]
  have h5 : Real.exp (5 : ℝ) = Real.exp 1 ^ (5 : ℕ) := by
    rw [Real.exp_one_pow]
    norm_num
  rw [h5]
  calc Real.exp 1 ^ (5 : ℕ) < 2.7182818286 ^ (5 : ℕ) := by
        gcongr
        exact Real.exp_one_lt_d9
    _ < (150 : ℝ) := by norm_num

theorem log150_lt_6 : Real.log (150 : ℝ) < 6 := by
  have h150 : (0 : ℝ) < (150 : ℝ) := by norm_num
  rw [Real.log_lt_iff_lt_exp h150]
  have h6 : Real.exp (6 : ℝ) = Real.exp 1 ^ (6 : ℕ) := by
    rw [Real.exp_one_pow]
    norm_num
  rw [h6]
  calc (150 : ℝ) < 2.7182818283 ^ (6 : ℕ) := by norm_num
    _ < Real.exp 1 ^ (6 : ℕ) := by
        gcongr
        exact Real.exp_one_gt_d9

theorem ceil_log150 : ⌈Real.log ((150 : Nat) : ℝ)⌉ = 6 := by
  have hc : ((150 : Nat) : ℝ) = (150 : ℝ) := by norm_num
  rw [hc, Int.ceil_eq_iff]
  constructor
  · push_cast
    linarith [log150_gt_5]
  · push_cast
    linarith [log150_lt_6]

theorem floor_log150 : ⌊Real.log ((150 : Nat) : ℝ)⌋ = 5 := by
  have hc : ((150 : Nat) : ℝ) = (150 : ℝ) := by norm_num
  rw [hc, Int.floor_eq_iff]
  constructor
  · push_cast
    linarith [log150_gt_5]
  · push_cast
    linarith [log150_lt_6]

/-- C9: counterexample at `K = 150` (`ln 150 ≈ 5.01`).  The sliding
variant's default depth is `max(3, ⌊ln K⌋) = 5`, not the claimed
`max(3, ⌈ln K⌉) = 6`; the plain variant's default width is
`max(256, K · ⌈ln K⌉) = 900`, while the claimed `max(256, ⌊K · ln K⌋)`
is below 900 (it is 751). -/
theorem C9_counterexample :
    (topk.New 150 []).Depth = 6 ∧
    (sliding.New 150 1 []).Depth = 5 ∧
    (specDefaultDepth 150).toNat = 6 ∧
    (topk.New 150 []).Width = 900 ∧
    (specDefaultWidth 150).toNat < 900 := by
  refine ⟨?_, ?_, ?_, ?_, ?_⟩
  · calc (topk.New 150 []).Depth
        = (max 3 ⌈Real.log ((150 : Nat) : ℝ)⌉).toNat := rfl
      _ = (max 3 (6 : ℤ)).toNat := by rw [ceil_log150]
      _ = 6 := rfl
  · calc (sliding.New 150 1 []).Depth
        = (max 3 ⌊Real.log ((150 : Nat) : ℝ)⌋).toNat := rfl
      _ = (max 3 (5 : ℤ)).toNat := by rw [floor_log150]
      _ = 5 := rfl
  · calc (specDefaultDepth 150).toNat
        = (max 3 ⌈Real.log ((150 : Nat) : ℝ)⌉).toNat := rfl
      _ = (max 3 (6 : ℤ)).toNat := by rw [ceil_log150]
      _ = 6 := rfl
  · calc (topk.New 150 []).Width
        = (max 256 ((150 : ℤ) * ⌈Real.log ((150 : Nat) : ℝ)⌉)).toNat := rfl
      _ = (max 256 ((150 : ℤ) * 6)).toNat := by rw [ceil_log150]
      _ = 900 := rfl
  · have hfl : ⌊((150 : Nat) : ℝ) * Real.log ((150 : Nat) : ℝ)⌋ < 900 := by
      refine Int.floor_lt.mpr ?_
      push_cast
      linarith [log150_lt_6]
    have hw : specDefaultWidth 150 < 900 := by
      unfold specDefaultWidth
      exact max_lt (by norm_num) hfl
    omega

/-- C9 (amended).  With neither `WithDepth` nor `WithWidth` given, the
plain variant sets `Depth = max(3, ⌈ln K⌉)` — matching the spec — and
`Width = max(256, K · ⌈ln K⌉)` (the ceiling of the log is taken before
the multiplication); the sliding variant sets `Depth = max(3, ⌊ln K⌋)`
(Go's `int(math.Log(k))` truncates) and `Width = max(256, ⌊K · ln K⌋)`
— matching the spec.  Only the plain depth and the sliding width agree
with the claimed formulas. -/
theorem C9_default_dimensions (k n : Nat) :
    (topk.New k []).Depth = (topk.plainDefaultDepth k).toNat ∧
    (topk.New k []).Width = (topk.plainDefaultWidth k).toNat ∧
    (sliding.New k n []).Depth = (sliding.slidingDefaultDepth k).toNat ∧
    (sliding.New k n []).Width = (sliding.slidingDefaultWidth k).toNat ∧
    topk.plainDefaultDepth k = specDefaultDepth k ∧
    sliding.slidingDefaultWidth k = specDefaultWidth k := by
  refine ⟨rfl, rfl, ?_, ?_, rfl, rfl⟩
  all_goals
    unfold sliding.New sliding.NewAux sliding.initBuckets sliding.initDecayLUT
  all_goals
    dsimp only
  all_goals
    split_ifs <;> first | rfl | simp_all
